import Mathlib

/-!
# Radial heat conduction around a fuel rod (`main.c`)

A shallow embedding of `main.c` in exact arithmetic.  Every `double` is read as an element of a
linearly ordered field `K` (the theorems take `K = ℝ` with `Real.exp`; `K = ℚ` evaluates), a
`gsl_vector` is a function from indices to `K`, and every C `for` loop is the fold `forLoop` over
its counter, so that the loops are embedded as they are written and their closed forms are proved.
-/

namespace NuclearWasteRod

variable {K : Type} [LinearOrderedField K]

/-! ## Constants, vectors, loops -/

/-- The `#define` constants of `main.c`, lines 8 to 12. -/
structure Consts (K : Type) where
  /-- Radial resolution. -/
  N : Nat
  /-- Temporal resolution (`10000.0f`, used as a count and as a divisor). -/
  M : Nat
  /-- Fuel rod constant. -/
  k : K
  /-- Radius of the fuel rod. -/
  a : K
  /-- Outer radius of the simulation. -/
  RC : K

/-- The values `main.c` gives the constants: `N 100`, `M 10000.0f`, `k 20000000.0f`, `a 25.0f`,
`RC 100.0f`. -/
def reference (K : Type) [LinearOrderedField K] : Consts K :=
  { N := 100, M := 10000, k := 20000000, a := 25, RC := 100 }

/-- A `gsl_vector`: its entries by index. -/
abbrev gsl_vector (K : Type) := Nat → K

/-- The call `gsl_vector_get(v, i)`. -/
def gsl_vector_get (v : gsl_vector K) (i : Nat) : K := v i

/-- The call `gsl_vector_set(v, i, x)`. -/
def gsl_vector_set (v : gsl_vector K) (i : Nat) (x : K) : gsl_vector K :=
  fun j => if j = i then x else v j

/-- The call `gsl_vector_alloc(n)`: the entries of a fresh vector are unspecified; each one the
program reads is written first, and the model starts them at `0`. -/
def gsl_vector_alloc (_n : Nat) : gsl_vector K := fun _ => 0

/-- The loop `for (i = 0; i < n; i++) body`: the body runs at `0, 1, ..., n-1` in that order. -/
def forLoop {σ : Type} (n : Nat) (body : Nat → σ → σ) (s : σ) : σ :=
  match n with
  | 0 => s
  | m + 1 => body m (forLoop m body s)

/-! ## The linear tridiagonal solve -/

/-- Modelled from the spec: `gsl_linalg_solve_tridiag` belongs to the GSL library and is not part
of the sources; the spec names it the "Linear Tridiagonal Solve" primitive that solves `A x = b`
for a tridiagonal `A`, to be implemented as the Thomas algorithm (forward elimination, then
back-substitution).  This is the pivot `alpha[i]` of the forward elimination. -/
def thomas_alpha (diag above below : gsl_vector K) : Nat → K
  | 0 => diag 0
  | i + 1 => diag (i + 1) - below i / thomas_alpha diag above below i * above i

/-- Modelled from the spec: the right-hand side `zb[i]` after the forward elimination of the
Thomas algorithm (see `thomas_alpha`). -/
def thomas_zb (diag above below rhs : gsl_vector K) : Nat → K
  | 0 => rhs 0
  | i + 1 => rhs (i + 1)
      - below i / thomas_alpha diag above below i * thomas_zb diag above below rhs i

/-- Modelled from the spec: back-substitution of the Thomas algorithm (see `thomas_alpha`):
`thomas_back d i` is the unknown `x[i]` when `d` rows lie below row `i`. -/
def thomas_back (diag above below rhs : gsl_vector K) : Nat → Nat → K
  | 0, i => thomas_zb diag above below rhs i / thomas_alpha diag above below i
  | d + 1, i => (thomas_zb diag above below rhs i
      - above i * thomas_back diag above below rhs d (i + 1)) / thomas_alpha diag above below i

/-- Modelled from the spec: the call `gsl_linalg_solve_tridiag(diag, above, below, rhs, x)` on
vectors of size `n` (see `thomas_alpha`): entries `0 .. n-1` of `x` receive the solution. -/
def gsl_linalg_solve_tridiag (n : Nat) (diag above below rhs x : gsl_vector K) : gsl_vector K :=
  fun i => if i < n then thomas_back diag above below rhs (n - 1 - i) i else x i

/-! ## Program state -/

/-- The vectors `main` allocates and hands to `set_initial_conditions` and `solve_matrix`:
the grid `r`, the clock `time` and the three temperature slots `T[0]`, `T[1]`, `T[2]`. -/
structure State (K : Type) where
  /-- The radial grid. -/
  r : gsl_vector K
  /-- The clock slots. -/
  time : gsl_vector K
  /-- The slot `T[0]`. -/
  T0 : gsl_vector K
  /-- The slot `T[1]`, the previous field. -/
  T1 : gsl_vector K
  /-- The slot `T[2]`, the current result. -/
  T2 : gsl_vector K

/-- The vectors local to `solve_matrix` (lines 37 to 44). -/
structure Locals (K : Type) where
  /-- The heat source. -/
  source : gsl_vector K
  /-- The diagonal of `A`. -/
  diag : gsl_vector K
  /-- The super-diagonal of `A`. -/
  above_diag : gsl_vector K
  /-- The sub-diagonal of `A`. -/
  below_diag : gsl_vector K
  /-- The right-hand side. -/
  b : gsl_vector K

/-- What `solve_matrix` works on: the caller's vectors and its own. -/
structure Frame (K : Type) where
  /-- The caller's vectors. -/
  st : State K
  /-- The local vectors. -/
  loc : Locals K

/-! ## `set_initial_conditions` (lines 14 to 30) -/

/-- Body of the loop of `set_initial_conditions`, lines 20 to 24. -/
def set_initial_conditions_body (c : Consts K) (i : Nat) (st : State K) : State K :=
  { st with
    r := gsl_vector_set st.r i ((i : K) * c.RC / (((c.N : Int) - 1 : Int) : K))
    T0 := gsl_vector_set st.T0 i 300
    T1 := gsl_vector_set st.T1 i 300
    T2 := gsl_vector_set st.T2 i 300 }

/-- The function `set_initial_conditions`. -/
def set_initial_conditions (c : Consts K) (st : State K) : State K :=
  let st1 := forLoop c.N (set_initial_conditions_body c) st
  { st1 with
    time := gsl_vector_set (gsl_vector_set (gsl_vector_set st1.time 0 0) 1 0) 2 0 }

/-! ## `solve_matrix` (lines 32 to 95) -/

/-- Line 47: `timestep = duration/M`. -/
def timestep (c : Consts K) (duration : K) : K := duration / (c.M : K)

/-- Line 48: `s = k * timestep / (r[1] * r[1])`. -/
def s_coeff (c : Consts K) (duration : K) (r : gsl_vector K) : K :=
  c.k * timestep c duration / (gsl_vector_get r 1 * gsl_vector_get r 1)

/-- Body of the assembly loop, lines 53 to 55. -/
def assemble_body (s : K) (i : Nat) (l : Locals K) : Locals K :=
  { l with
    diag := gsl_vector_set l.diag i (1 + 2 * s)
    above_diag := gsl_vector_set l.above_diag i (-s - s / ((2 * (i + 1) : Nat) : K))
    below_diag := gsl_vector_set l.below_diag i (-s + s / ((2 * (i + 2) : Nat) : K)) }

/-- Lines 51 to 60: the assembly loop over `i < N-1`, then the two writes to `diag`. -/
def assemble (n : Nat) (s : K) (l : Locals K) : Locals K :=
  let l1 := forLoop (n - 1) (assemble_body s) l
  let l2 := { l1 with diag := gsl_vector_set l1.diag (n - 1) (1 + 2 * s) }
  { l2 with diag := gsl_vector_set l2.diag 0 (1 + s + s / 2) }

/-- Body of the inner loop of an iteration, lines 68 to 85. -/
def rhs_body (c : Consts K) (exp : K → K) (dt s : K) (i : Nat) (f : Frame K) : Frame K :=
  let T1 := gsl_vector_set f.st.T1 i (gsl_vector_get f.st.T2 i)
  let source :=
    if gsl_vector_get f.st.r i ≤ c.a then
      gsl_vector_set f.loc.source i (exp (-gsl_vector_get f.st.time 1 / 100) / (c.a * c.a))
    else
      gsl_vector_set f.loc.source i 0
  let b := gsl_vector_set f.loc.b i
    (gsl_vector_get T1 i + c.k * dt * gsl_vector_get source i)
  let b1 :=
    if i = c.N - 1 then
      gsl_vector_set b i ((gsl_vector_get T1 i + c.k * dt * gsl_vector_get source i)
        + 300 * (s + s / ((2 * c.N : Nat) : K)))
    else b
  { st := { f.st with T1 := T1 }, loc := { f.loc with source := source, b := b1 } }

/-- Lines 64 to 86 of iteration `j`: the clock is set, then the inner loop fills `T[1]`, `source`
and `b`.  The frame returned is the one the linear solve receives. -/
def rhs_loop (c : Consts K) (exp : K → K) (dt s : K) (j : Nat) (f : Frame K) : Frame K :=
  forLoop c.N (rhs_body c exp dt s)
    { f with st := { f.st with time := gsl_vector_set f.st.time 1 ((j : K) * dt) } }

/-- Body of the outer loop, lines 64 to 93: `rhs_loop`, then the linear solve into `T[2]`. -/
def step_body (c : Consts K) (exp : K → K) (dt s : K) (j : Nat) (f : Frame K) : Frame K :=
  let f1 := rhs_loop c exp dt s j f
  { f1 with st := { f1.st with
      T2 := gsl_linalg_solve_tridiag c.N f1.loc.diag f1.loc.above_diag f1.loc.below_diag
        f1.loc.b f1.st.T2 } }

/-- Lines 40 to 44: the local vectors as allocated. -/
def solve_matrix_locals (c : Consts K) : Locals K :=
  { source := gsl_vector_alloc c.N, diag := gsl_vector_alloc c.N,
    above_diag := gsl_vector_alloc (c.N - 1), below_diag := gsl_vector_alloc (c.N - 1),
    b := gsl_vector_alloc c.N }

/-- The frame of `solve_matrix` when the outer loop is entered (lines 40 to 60). -/
def solve_matrix_enter (c : Consts K) (duration : K) (st : State K) : Frame K :=
  { st := st, loc := assemble c.N (s_coeff c duration st.r) (solve_matrix_locals c) }

/-- The frame of `solve_matrix` after the first `m` iterations of the outer loop. -/
def solve_matrix_frame (c : Consts K) (exp : K → K) (duration : K) (st : State K) (m : Nat) :
    Frame K :=
  forLoop m (step_body c exp (timestep c duration) (s_coeff c duration st.r))
    (solve_matrix_enter c duration st)

/-- The function `solve_matrix`: the caller's vectors after all `M` iterations. -/
def solve_matrix (c : Consts K) (exp : K → K) (duration : K) (st : State K) : State K :=
  (solve_matrix_frame c exp duration st c.M).st

/-! ## `main` (lines 180 to 232) -/

/-- Lines 185 to 189 of `main`: the vectors `r`, `time`, `T[0]`, `T[1]`, `T[2]` as allocated. -/
def main_alloc (c : Consts K) : State K :=
  { r := gsl_vector_alloc c.N, time := gsl_vector_alloc 3, T0 := gsl_vector_alloc c.N,
    T1 := gsl_vector_alloc c.N, T2 := gsl_vector_alloc c.N }

/-- Lines 185 to 195 of `main` at the reference constants: the state when the first run
starts. -/
def reference_start (K : Type) [LinearOrderedField K] : State K :=
  set_initial_conditions (reference K) (main_alloc (reference K))

/-! ## `store_data` (lines 170 to 178) -/

/-- Body of the loop of `store_data`, line 175: `T_final[j][i] = T[2][i]`. -/
def store_data_body (st : State K) (j : Nat) (i : Nat) (T_final : Nat → gsl_vector K) :
    Nat → gsl_vector K :=
  fun m => if m = j then gsl_vector_set (T_final j) i (gsl_vector_get st.T2 i) else T_final m

/-- The function `store_data`: the copy loop, then `set_initial_conditions`. -/
def store_data (c : Consts K) (st : State K) (T_final : Nat → gsl_vector K) (j : Nat) :
    State K × (Nat → gsl_vector K) :=
  (set_initial_conditions c st, forLoop c.N (store_data_body st j) T_final)

/-! ## Vocabulary of the theorems: closed forms, tridiagonal systems, what the solve receives -/

/-- The heat source the inner loop writes at index `i` when the clock reads `t`. -/
def source_entry (c : Consts K) (exp : K → K) (r : gsl_vector K) (t : K) (i : Nat) : K :=
  if r i ≤ c.a then exp (-t / 100) / (c.a * c.a) else 0

/-- The right-hand side the inner loop writes at index `i`, from the field `T` it copies and
the clock `t`. -/
def rhs_entry (c : Consts K) (exp : K → K) (dt s : K) (r T : gsl_vector K) (t : K) (i : Nat) :
    K :=
  if i = c.N - 1 then
    (T i + c.k * dt * source_entry c exp r t i) + 300 * (s + s / ((2 * c.N : Nat) : K))
  else T i + c.k * dt * source_entry c exp r t i

/-- The sub-diagonal coefficient of row `i`: `below[i-1]`, and none in row `0`. -/
def sub_entry (below : gsl_vector K) (i : Nat) : K := if 0 < i then below (i - 1) else 0

/-- The super-diagonal coefficient of row `i` of an `n`-row system: `above[i]`, and none in the
last row. -/
def super_entry (n : Nat) (above : gsl_vector K) (i : Nat) : K :=
  if i + 1 < n then above i else 0

/-- Row `i` of the tridiagonal matrix applied to `x`. -/
def row_apply (n : Nat) (diag above below x : gsl_vector K) (i : Nat) : K :=
  sub_entry below i * x (i - 1) + diag i * x i + super_entry n above i * x (i + 1)

/-- The vector `x` solves every row of the `n`-row system `A x = rhs`. -/
def TridiagSolves (n : Nat) (diag above below rhs x : gsl_vector K) : Prop :=
  ∀ i, i < n → row_apply n diag above below x i = rhs i

instance (n : Nat) (diag above below rhs x : gsl_vector K) :
    Decidable (TridiagSolves n diag above below rhs x) := by
  unfold TridiagSolves
  infer_instance

/-- The sign pattern of the assembled matrix: off-diagonal coefficients are not positive and every
row sum is positive. -/
def RowDominant (n : Nat) (diag above below : gsl_vector K) : Prop :=
  ∀ i, i < n → sub_entry below i ≤ 0 ∧ super_entry n above i ≤ 0 ∧
    0 < sub_entry below i + diag i + super_entry n above i

/-- The frame that iteration `m` (counted from `0`) hands to the linear solve on line 93: the
frame after `m` iterations, with the clock set and the inner loop run. -/
def solve_input (c : Consts K) (exp : K → K) (duration : K) (st : State K) (m : Nat) : Frame K :=
  rhs_loop c exp (timestep c duration) (s_coeff c duration st.r) m
    (solve_matrix_frame c exp duration st m)

/-- The right-hand side that iteration `m` (counted from `0`) hands to the linear solve. -/
def rhs_at (c : Consts K) (exp : K → K) (duration : K) (st : State K) (m : Nat) : gsl_vector K :=
  (solve_input c exp duration st m).loc.b

/-- The source vector the inner loop (lines 66 to 86) computes from the frame `f` when the clock
`time[1]` reads `t`. -/
def source_at (c : Consts K) (exp : K → K) (dt s : K) (f : Frame K) (t : K) : gsl_vector K :=
  (forLoop c.N (rhs_body c exp dt s)
    { f with st := { f.st with time := gsl_vector_set f.st.time 1 t } }).loc.source


/-! ## The runs of `main` (lines 195 to 212) and `save_output` (lines 138 to 168) -/

/-- Lines 190 to 193 of `main`: the archive `T_final[0..3]` as allocated. -/
def main_archive_alloc (c : Consts K) : Nat → gsl_vector K := fun _ => gsl_vector_alloc c.N

/-- One `solve_matrix(duration, ...)` call followed by `store_data(..., j)`, as `main` pairs
them. -/
def run_and_store (c : Consts K) (exp : K → K) (duration : K) (j : Nat)
    (w : State K × (Nat → gsl_vector K)) : State K × (Nat → gsl_vector K) :=
  store_data c (solve_matrix c exp duration w.1) w.2 j

/-- Lines 195 to 212 of `main`: `set_initial_conditions`, then the four runs with the durations
written in the calls (`0.01`, `10.0`, `50.0`, `100.0`), each archived by `store_data`. -/
def main_runs (c : Consts K) (exp : K → K) : State K × (Nat → gsl_vector K) :=
  run_and_store c exp 100 3
    (run_and_store c exp 50 2
      (run_and_store c exp 10 1
        (run_and_store c exp (1 / 100) 0
          (set_initial_conditions c (main_alloc c), main_archive_alloc c))))

/-- The character `fprintf` writes for the blank in `"%lf "`. -/
def blank : Char := Char.ofNat 32

/-- The character `fprintf` writes for `"\n"`. -/
def newline : Char := Char.ofNat 10

/-- Lines 156 to 157: one round of the loop over the four archive slots, `fprintf(output, "%lf ",
T_final[j][i])`; `fmt` is the conversion `%lf` of the C library. -/
def save_output_column (fmt : K → List Char) (T_final : Nat → gsl_vector K) (i j : Nat)
    (out : List Char) : List Char :=
  out ++ (fmt (gsl_vector_get (T_final j) i) ++ [blank])

/-- Lines 152 to 163: one round of the loop over the grid points. -/
def save_output_body (c : Consts K) (fmt : K → List Char) (T_final : Nat → gsl_vector K)
    (r : gsl_vector K) (i : Nat) (out : List Char) : List Char :=
  let out1 := out ++ (fmt (gsl_vector_get r i) ++ [blank])
  let out2 := forLoop 4 (save_output_column fmt T_final i) out1
  if i ≠ c.N - 1 then out2 ++ [newline] else out2

/-- The function `save_output`: the characters written to `output.dat`, or the exit status `2`
when the file cannot be opened (`opened` is the outcome of `fopen`). -/
def save_output (c : Consts K) (fmt : K → List Char) (opened : Bool)
    (T_final : Nat → gsl_vector K) (r : gsl_vector K) : Except Nat (List Char) :=
  if opened then Except.ok (forLoop c.N (save_output_body c fmt T_final r) [])
  else Except.error 2

/-- Row `i` of `output.dat` as the claims describe it: `r[i]` and the four archived values, each
followed by one blank. -/
def output_row (fmt : K → List Char) (T_final : Nat → gsl_vector K) (r : gsl_vector K)
    (i : Nat) : List Char :=
  fmt (r i) ++ [blank] ++ (fmt (T_final 0 i) ++ [blank]) ++ (fmt (T_final 1 i) ++ [blank])
    ++ (fmt (T_final 2 i) ++ [blank]) ++ (fmt (T_final 3 i) ++ [blank])

/-! ## Closed forms of the loops -/

set_option linter.unusedSectionVars false

theorem gsl_vector_set_apply (v : gsl_vector K) (i j : Nat) (x : K) :
    gsl_vector_set v i x j = if j = i then x else v j := rfl

theorem forLoop_succ {σ : Type} (n : Nat) (body : Nat → σ → σ) (s : σ) :
    forLoop (n + 1) body s = body n (forLoop n body s) := rfl

/-- The loop of `set_initial_conditions` after `n` rounds. -/
theorem set_initial_conditions_loop (c : Consts K) (st : State K) (n : Nat) :
    forLoop n (set_initial_conditions_body c) st =
      { r := fun j => if j < n then (j : K) * c.RC / (((c.N : Int) - 1 : Int) : K) else st.r j
        time := st.time
        T0 := fun j => if j < n then 300 else st.T0 j
        T1 := fun j => if j < n then 300 else st.T1 j
        T2 := fun j => if j < n then 300 else st.T2 j } := by
  induction n with
  | zero => simp [forLoop]
  | succ n ih =>
    rw [forLoop_succ, ih]
    simp only [set_initial_conditions_body]
    congr 1 <;> funext j <;> simp only [gsl_vector_set_apply] <;>
      by_cases h1 : j = n <;> by_cases h2 : j < n <;>
      simp [h1, h2, Nat.lt_succ_iff_lt_or_eq]

/-- The assembly loop after `n` rounds. -/
theorem assemble_loop (s : K) (l : Locals K) (n : Nat) :
    forLoop n (assemble_body s) l =
      { source := l.source
        diag := fun j => if j < n then 1 + 2 * s else l.diag j
        above_diag := fun j =>
          if j < n then -s - s / ((2 * (j + 1) : Nat) : K) else l.above_diag j
        below_diag := fun j =>
          if j < n then -s + s / ((2 * (j + 2) : Nat) : K) else l.below_diag j
        b := l.b } := by
  induction n with
  | zero => simp [forLoop]
  | succ n ih =>
    rw [forLoop_succ, ih]
    simp only [assemble_body]
    congr 1 <;> funext j <;> simp only [gsl_vector_set_apply] <;>
      by_cases h1 : j = n <;> by_cases h2 : j < n <;>
      simp [h1, h2, Nat.lt_succ_iff_lt_or_eq]

/-- One round of the inner loop writes one entry of `T[1]`, `source` and `b`. -/
theorem rhs_body_eq (c : Consts K) (exp : K → K) (dt s : K) (i : Nat) (f : Frame K) :
    rhs_body c exp dt s i f =
      { st := { f.st with T1 := gsl_vector_set f.st.T1 i (f.st.T2 i) }
        loc := { f.loc with
          source := gsl_vector_set f.loc.source i (source_entry c exp f.st.r (f.st.time 1) i)
          b := gsl_vector_set f.loc.b i
            (rhs_entry c exp dt s f.st.r f.st.T2 (f.st.time 1) i) } } := by
  have hsrc : (if gsl_vector_get f.st.r i ≤ c.a then
        gsl_vector_set f.loc.source i (exp (-gsl_vector_get f.st.time 1 / 100) / (c.a * c.a))
      else gsl_vector_set f.loc.source i 0)
      = gsl_vector_set f.loc.source i (source_entry c exp f.st.r (f.st.time 1) i) := by
    unfold source_entry gsl_vector_get
    split_ifs <;> rfl
  unfold rhs_body
  simp only [hsrc]
  congr 2
  funext j
  unfold rhs_entry gsl_vector_get
  by_cases hj : j = i
  · subst hj
    by_cases hi : j = c.N - 1 <;> simp [gsl_vector_set_apply, hi]
  · split_ifs <;> simp [gsl_vector_set_apply, hj]

/-- The inner loop after `n` rounds. -/
theorem rhs_body_loop (c : Consts K) (exp : K → K) (dt s : K) (f : Frame K) (n : Nat) :
    forLoop n (rhs_body c exp dt s) f =
      { st := { f.st with T1 := fun j => if j < n then f.st.T2 j else f.st.T1 j }
        loc := { f.loc with
          source := fun j =>
            if j < n then source_entry c exp f.st.r (f.st.time 1) j else f.loc.source j
          b := fun j =>
            if j < n then rhs_entry c exp dt s f.st.r f.st.T2 (f.st.time 1) j
            else f.loc.b j } } := by
  induction n with
  | zero => simp [forLoop]
  | succ n ih =>
    rw [forLoop_succ, ih, rhs_body_eq]
    dsimp only
    congr 2 <;> funext j <;> simp only [gsl_vector_set_apply] <;>
      by_cases h1 : j = n <;> by_cases h2 : j < n <;>
      simp [h1, h2, Nat.lt_succ_iff_lt_or_eq]

/-- One iteration of the outer loop, in closed form. -/
theorem step_body_eq (c : Consts K) (exp : K → K) (dt s : K) (j : Nat) (f : Frame K) :
    step_body c exp dt s j f =
      { st :=
          { r := f.st.r
            time := gsl_vector_set f.st.time 1 ((j : K) * dt)
            T0 := f.st.T0
            T1 := fun i => if i < c.N then f.st.T2 i else f.st.T1 i
            T2 := gsl_linalg_solve_tridiag c.N f.loc.diag f.loc.above_diag f.loc.below_diag
              (fun i => if i < c.N then rhs_entry c exp dt s f.st.r f.st.T2 ((j : K) * dt) i
                else f.loc.b i) f.st.T2 }
        loc := { f.loc with
          source := fun i =>
            if i < c.N then source_entry c exp f.st.r ((j : K) * dt) i else f.loc.source i
          b := fun i =>
            if i < c.N then rhs_entry c exp dt s f.st.r f.st.T2 ((j : K) * dt) i
            else f.loc.b i } } := by
  unfold step_body rhs_loop
  rw [rhs_body_loop]
  simp [gsl_vector_set_apply]

/-! ## The assembled matrix -/

theorem assemble_diag_zero (n : Nat) (s : K) (l : Locals K) :
    (assemble n s l).diag 0 = 1 + s + s / 2 := by
  simp [assemble, gsl_vector_set_apply]

theorem assemble_diag_pos (n : Nat) (s : K) (l : Locals K) (i : Nat) (h1 : 1 ≤ i)
    (h2 : i ≤ n - 1) : (assemble n s l).diag i = 1 + 2 * s := by
  have h0 : i ≠ 0 := by omega
  simp only [assemble, gsl_vector_set_apply, assemble_loop, if_neg h0]
  by_cases h : i = n - 1
  · simp [h]
  · have : i < n - 1 := by omega
    simp [h, this]

theorem assemble_above (n : Nat) (s : K) (l : Locals K) (i : Nat) (h : i < n - 1) :
    (assemble n s l).above_diag i = -s - s / ((2 * (i + 1) : Nat) : K) := by
  simp [assemble, assemble_loop, h]

theorem assemble_below (n : Nat) (s : K) (l : Locals K) (i : Nat) (h : i < n - 1) :
    (assemble n s l).below_diag i = -s + s / ((2 * (i + 2) : Nat) : K) := by
  simp [assemble, assemble_loop, h]

/-! ## The Thomas algorithm solves the system -/

theorem thomas_back_step (diag above below rhs : gsl_vector K) (n i : Nat) (h : i + 1 < n) :
    thomas_back diag above below rhs (n - 1 - i) i =
      (thomas_zb diag above below rhs i
        - above i * thomas_back diag above below rhs (n - 1 - (i + 1)) (i + 1))
        / thomas_alpha diag above below i := by
  have : n - 1 - i = (n - 1 - (i + 1)) + 1 := by omega
  rw [this, thomas_back]

theorem thomas_back_last (diag above below rhs : gsl_vector K) (n i : Nat) (h : i + 1 = n) :
    thomas_back diag above below rhs (n - 1 - i) i =
      thomas_zb diag above below rhs i / thomas_alpha diag above below i := by
  have : n - 1 - i = 0 := by omega
  rw [this, thomas_back]

/-- After back-substitution every row of the eliminated (bidiagonal) system holds. -/
theorem thomas_bidiag (n : Nat) (diag above below rhs x0 : gsl_vector K) (i : Nat) (hi : i < n)
    (hp : thomas_alpha diag above below i ≠ 0) :
    thomas_alpha diag above below i * gsl_linalg_solve_tridiag n diag above below rhs x0 i
      + super_entry n above i * gsl_linalg_solve_tridiag n diag above below rhs x0 (i + 1)
      = thomas_zb diag above below rhs i := by
  unfold gsl_linalg_solve_tridiag super_entry
  by_cases h : i + 1 < n
  · rw [if_pos hi, if_pos h, if_pos h, thomas_back_step _ _ _ _ n i h]
    field_simp
  · have h1 : i + 1 = n := by omega
    rw [if_pos hi, if_neg h, thomas_back_last _ _ _ _ n i h1]
    field_simp

/-- The Thomas algorithm returns a solution of `A x = rhs` when no pivot vanishes. -/
theorem thomas_solves (n : Nat) (diag above below rhs x0 : gsl_vector K)
    (hp : ∀ i, i < n → thomas_alpha diag above below i ≠ 0) :
    TridiagSolves n diag above below rhs
      (gsl_linalg_solve_tridiag n diag above below rhs x0) := by
  intro i hi
  have hrow := thomas_bidiag n diag above below rhs x0 i hi (hp i hi)
  unfold row_apply
  cases i with
  | zero =>
    simp only [thomas_alpha, thomas_zb] at hrow
    simp [sub_entry, hrow]
  | succ m =>
    have hm : m < n := by omega
    have hprev := thomas_bidiag n diag above below rhs x0 m hm (hp m hm)
    have hsup : super_entry n above m = above m := by
      unfold super_entry
      rw [if_pos hi]
    rw [hsup] at hprev
    have ha := hp m hm
    simp only [thomas_alpha, thomas_zb] at hrow
    have hsub : sub_entry below (m + 1) = below m := by simp [sub_entry]
    rw [hsub, Nat.add_sub_cancel]
    rw [← hprev] at hrow
    field_simp at hrow
    apply mul_right_cancel₀ ha
    linear_combination hrow

/-- Under the sign pattern of `RowDominant` every pivot of the elimination exceeds the size of the
super-diagonal coefficient of its row; in particular no pivot vanishes. -/
theorem thomas_alpha_pos (n : Nat) (diag above below : gsl_vector K)
    (hd : RowDominant n diag above below) (i : Nat) (hi : i < n) :
    0 < thomas_alpha diag above below i + super_entry n above i := by
  induction i with
  | zero =>
    have h := (hd 0 hi).2.2
    simpa [thomas_alpha, sub_entry] using h
  | succ m ih =>
    have hm : m < n := by omega
    have ihm := ih hm
    have hsup : super_entry n above m = above m := by
      unfold super_entry
      rw [if_pos hi]
    rw [hsup] at ihm
    obtain ⟨_, hup, _⟩ := hd m hm
    rw [hsup] at hup
    obtain ⟨hsub, _, hrow⟩ := hd (m + 1) hi
    have hsubm : sub_entry below (m + 1) = below m := by simp [sub_entry]
    rw [hsubm] at hsub hrow
    have hapos : 0 < thomas_alpha diag above below m := by linarith
    have key : below m / thomas_alpha diag above below m * above m ≤ -below m := by
      rw [div_mul_eq_mul_div, div_le_iff₀ hapos]
      nlinarith
    simp only [thomas_alpha]
    linarith

theorem thomas_alpha_ne_zero (n : Nat) (diag above below : gsl_vector K)
    (hd : RowDominant n diag above below) (i : Nat) (hi : i < n) :
    thomas_alpha diag above below i ≠ 0 := by
  have h1 := thomas_alpha_pos n diag above below hd i hi
  have h2 := (hd i hi).2.1
  have : 0 < thomas_alpha diag above below i := by linarith
  exact ne_of_gt this

/-- Discrete minimum principle: with the sign pattern of `RowDominant`, a solution of `A x = rhs`
stays above every level `lo` that the right-hand side stays above (row sum times `lo`). -/
theorem tridiag_lower_bound (n : Nat) (diag above below rhs x : gsl_vector K)
    (hd : RowDominant n diag above below) (hx : TridiagSolves n diag above below rhs x) (lo : K)
    (hb : ∀ i, i < n →
      (sub_entry below i + diag i + super_entry n above i) * lo ≤ rhs i) :
    ∀ i, i < n → lo ≤ x i := by
  intro i hi
  by_contra hlt
  push_neg at hlt
  obtain ⟨m, hm, hmin⟩ :=
    Finset.exists_min_image (Finset.range n) x ⟨i, Finset.mem_range.mpr hi⟩
  have hmn : m < n := Finset.mem_range.mp hm
  have hxm : x m < lo := lt_of_le_of_lt (hmin i (Finset.mem_range.mpr hi)) hlt
  obtain ⟨hsub, hsup, hrow⟩ := hd m hmn
  have hrowm := hx m hmn
  unfold row_apply at hrowm
  have h1 : sub_entry below m * x (m - 1) ≤ sub_entry below m * x m := by
    by_cases h0 : 0 < m
    · exact mul_le_mul_of_nonpos_left (hmin (m - 1) (Finset.mem_range.mpr (by omega))) hsub
    · simp [sub_entry, h0]
  have h2 : super_entry n above m * x (m + 1) ≤ super_entry n above m * x m := by
    by_cases h0 : m + 1 < n
    · exact mul_le_mul_of_nonpos_left (hmin (m + 1) (Finset.mem_range.mpr h0)) hsup
    · simp [super_entry, h0]
  have h3 := hb m hmn
  have h4 : (sub_entry below m + diag m + super_entry n above m) * x m
      < (sub_entry below m + diag m + super_entry n above m) * lo :=
    mul_lt_mul_of_pos_left hxm hrow
  linarith

/-- Discrete maximum principle, the mirror image of `tridiag_lower_bound`. -/
theorem tridiag_upper_bound (n : Nat) (diag above below rhs x : gsl_vector K)
    (hd : RowDominant n diag above below) (hx : TridiagSolves n diag above below rhs x) (hi : K)
    (hb : ∀ i, i < n →
      rhs i ≤ (sub_entry below i + diag i + super_entry n above i) * hi) :
    ∀ i, i < n → x i ≤ hi := by
  intro i hin
  by_contra hlt
  push_neg at hlt
  obtain ⟨m, hm, hmax⟩ :=
    Finset.exists_max_image (Finset.range n) x ⟨i, Finset.mem_range.mpr hin⟩
  have hmn : m < n := Finset.mem_range.mp hm
  have hxm : hi < x m := lt_of_lt_of_le hlt (hmax i (Finset.mem_range.mpr hin))
  obtain ⟨hsub, hsup, hrow⟩ := hd m hmn
  have hrowm := hx m hmn
  unfold row_apply at hrowm
  have h1 : sub_entry below m * x m ≤ sub_entry below m * x (m - 1) := by
    by_cases h0 : 0 < m
    · exact mul_le_mul_of_nonpos_left (hmax (m - 1) (Finset.mem_range.mpr (by omega))) hsub
    · simp [sub_entry, h0]
  have h2 : super_entry n above m * x m ≤ super_entry n above m * x (m + 1) := by
    by_cases h0 : m + 1 < n
    · exact mul_le_mul_of_nonpos_left (hmax (m + 1) (Finset.mem_range.mpr h0)) hsup
    · simp [super_entry, h0]
  have h3 := hb m hmn
  have h4 : (sub_entry below m + diag m + super_entry n above m) * hi
      < (sub_entry below m + diag m + super_entry n above m) * x m :=
    mul_lt_mul_of_pos_left hxm hrow
  linarith

/-! ## Sign pattern and row sums of the assembled matrix -/

theorem assemble_above_nonpos (n : Nat) (s : K) (hs : 0 ≤ s) (l : Locals K) (i : Nat)
    (h : i < n - 1) : (assemble n s l).above_diag i ≤ 0 := by
  rw [assemble_above n s l i h]
  have : 0 ≤ s / ((2 * (i + 1) : Nat) : K) := div_nonneg hs (Nat.cast_nonneg _)
  linarith

theorem assemble_below_nonpos (n : Nat) (s : K) (hs : 0 ≤ s) (l : Locals K) (i : Nat)
    (h : i < n - 1) : (assemble n s l).below_diag i ≤ 0 := by
  rw [assemble_below n s l i h]
  have h1 : (1 : K) ≤ ((2 * (i + 2) : Nat) : K) := by
    have : 1 ≤ 2 * (i + 2) := by omega
    exact_mod_cast this
  have : s / ((2 * (i + 2) : Nat) : K) ≤ s := div_le_self hs h1
  linarith

/-- Row sums of the assembled matrix: `1` in every row but the last, `1 + s + s/(2N)` there. -/
theorem assemble_row_sum (n : Nat) (hn : 2 ≤ n) (s : K) (l : Locals K) (i : Nat) (hi : i < n) :
    sub_entry (assemble n s l).below_diag i + (assemble n s l).diag i
      + super_entry n (assemble n s l).above_diag i
      = if i + 1 = n then 1 + s + s / ((2 * n : Nat) : K) else 1 := by
  cases i with
  | zero =>
    have h1 : (0 : Nat) + 1 < n := by omega
    have h2 : ¬ (0 + 1 = n) := by omega
    rw [if_neg h2, assemble_diag_zero]
    simp only [sub_entry, super_entry, if_pos h1, lt_irrefl, if_false]
    rw [assemble_above n s l 0 (by omega)]
    push_cast
    ring
  | succ m =>
    have hsub : sub_entry (assemble n s l).below_diag (m + 1)
        = -s + s / ((2 * (m + 2) : Nat) : K) := by
      simp only [sub_entry, Nat.succ_pos, if_true, Nat.add_sub_cancel]
      rw [assemble_below n s l m (by omega)]
    rw [hsub, assemble_diag_pos n s l (m + 1) (by omega) (by omega)]
    by_cases h : m + 1 + 1 = n
    · have h1 : ¬ (m + 1 + 1 < n) := by omega
      rw [if_pos h]
      simp only [super_entry, if_neg h1]
      have : n = m + 2 := by omega
      subst this
      ring
    · have h1 : m + 1 + 1 < n := by omega
      rw [if_neg h]
      simp only [super_entry, if_pos h1]
      rw [assemble_above n s l (m + 1) (by omega)]
      ring

/-- For `s ≥ 0` the assembled matrix has the sign pattern of `RowDominant`. -/
theorem assemble_rowDominant (n : Nat) (hn : 2 ≤ n) (s : K) (hs : 0 ≤ s) (l : Locals K) :
    RowDominant n (assemble n s l).diag (assemble n s l).above_diag
      (assemble n s l).below_diag := by
  intro i hi
  refine ⟨?_, ?_, ?_⟩
  · unfold sub_entry
    split_ifs with h
    · exact assemble_below_nonpos n s hs l (i - 1) (by omega)
    · exact le_refl 0
  · unfold super_entry
    split_ifs with h
    · exact assemble_above_nonpos n s hs l i (by omega)
    · exact le_refl 0
  · rw [assemble_row_sum n hn s l i hi]
    split_ifs
    · have : 0 ≤ s / ((2 * n : Nat) : K) := div_nonneg hs (Nat.cast_nonneg _)
      linarith
    · exact one_pos

/-! ## The frame of `solve_matrix` along the outer loop -/

theorem solve_matrix_frame_succ (c : Consts K) (exp : K → K) (duration : K) (st : State K)
    (m : Nat) :
    solve_matrix_frame c exp duration st (m + 1) =
      step_body c exp (timestep c duration) (s_coeff c duration st.r) m
        (solve_matrix_frame c exp duration st m) := rfl

/-- The outer loop never touches the coefficient vectors, the grid or `T[0]`. -/
theorem solve_matrix_frame_fixed (c : Consts K) (exp : K → K) (duration : K) (st : State K)
    (m : Nat) :
    (solve_matrix_frame c exp duration st m).loc.diag
        = (solve_matrix_enter c duration st).loc.diag ∧
      (solve_matrix_frame c exp duration st m).loc.above_diag
        = (solve_matrix_enter c duration st).loc.above_diag ∧
      (solve_matrix_frame c exp duration st m).loc.below_diag
        = (solve_matrix_enter c duration st).loc.below_diag ∧
      (solve_matrix_frame c exp duration st m).st.r = st.r ∧
      (solve_matrix_frame c exp duration st m).st.T0 = st.T0 := by
  induction m with
  | zero => exact ⟨rfl, rfl, rfl, rfl, rfl⟩
  | succ m ih =>
    rw [solve_matrix_frame_succ, step_body_eq]
    exact ih

theorem rhs_at_apply (c : Consts K) (exp : K → K) (duration : K) (st : State K) (m i : Nat)
    (hi : i < c.N) :
    rhs_at c exp duration st m i =
      rhs_entry c exp (timestep c duration) (s_coeff c duration st.r) st.r
        (solve_matrix_frame c exp duration st m).st.T2 ((m : K) * timestep c duration) i := by
  unfold rhs_at solve_input rhs_loop
  rw [rhs_body_loop]
  simp [hi, gsl_vector_set_apply, (solve_matrix_frame_fixed c exp duration st m).2.2.2.1]

/-- The field after iteration `m` is what the linear solve returns for the assembled matrix and
the right-hand side of that iteration. -/
theorem solve_matrix_frame_T2_succ (c : Consts K) (exp : K → K) (duration : K) (st : State K)
    (m : Nat) :
    (solve_matrix_frame c exp duration st (m + 1)).st.T2 =
      gsl_linalg_solve_tridiag c.N (solve_matrix_enter c duration st).loc.diag
        (solve_matrix_enter c duration st).loc.above_diag
        (solve_matrix_enter c duration st).loc.below_diag
        (rhs_at c exp duration st m) (solve_matrix_frame c exp duration st m).st.T2 := by
  obtain ⟨h1, h2, h3, _, _⟩ := solve_matrix_frame_fixed c exp duration st m
  rw [solve_matrix_frame_succ]
  unfold step_body rhs_at solve_input
  unfold rhs_loop
  simp only [rhs_body_loop, h1, h2, h3]

/-- For `s ≥ 0` the field after each iteration solves `A x = b` exactly. -/
theorem solve_matrix_frame_solves (c : Consts K) (exp : K → K) (duration : K) (st : State K)
    (hn : 2 ≤ c.N) (hs : 0 ≤ s_coeff c duration st.r) (m : Nat) :
    TridiagSolves c.N (solve_matrix_enter c duration st).loc.diag
      (solve_matrix_enter c duration st).loc.above_diag
      (solve_matrix_enter c duration st).loc.below_diag
      (rhs_at c exp duration st m) (solve_matrix_frame c exp duration st (m + 1)).st.T2 := by
  rw [solve_matrix_frame_T2_succ]
  apply thomas_solves
  intro i hi
  exact thomas_alpha_ne_zero c.N _ _ _ (assemble_rowDominant c.N hn _ hs _) i hi

/-! ## Bounds on one exact step -/

/-- The right-hand side of a step is at least `300` times the row sum when the right-hand side
without its Dirichlet term is at least `300`. -/
theorem step_rhs_ge (c : Consts K) (exp : K → K) (dt s : K) (r T : gsl_vector K) (t : K)
    (l : Locals K) (b : gsl_vector K) (hn : 2 ≤ c.N)
    (hb : ∀ i, i < c.N → b i = rhs_entry c exp dt s r T t i)
    (hrhs : ∀ i, i < c.N → 300 ≤ T i + c.k * dt * source_entry c exp r t i) :
    ∀ i, i < c.N →
      (sub_entry (assemble c.N s l).below_diag i + (assemble c.N s l).diag i
        + super_entry c.N (assemble c.N s l).above_diag i) * 300 ≤ b i := by
  intro i hi
  rw [assemble_row_sum c.N hn s l i hi, hb i hi]
  unfold rhs_entry
  have h := hrhs i hi
  by_cases hl : i + 1 = c.N
  · have hl1 : i = c.N - 1 := by omega
    rw [if_pos hl, if_pos hl1]
    linarith
  · have hl1 : ¬ (i = c.N - 1) := by omega
    rw [if_neg hl, if_neg hl1]
    linarith

/-- A solution of one step's system stays at or above `300` when the right-hand side without its
Dirichlet term does. -/
theorem step_lower_bound (c : Consts K) (exp : K → K) (dt s : K) (r T : gsl_vector K) (t : K)
    (l : Locals K) (b x : gsl_vector K) (hn : 2 ≤ c.N) (hs : 0 ≤ s)
    (hb : ∀ i, i < c.N → b i = rhs_entry c exp dt s r T t i)
    (hrhs : ∀ i, i < c.N → 300 ≤ T i + c.k * dt * source_entry c exp r t i)
    (hx : TridiagSolves c.N (assemble c.N s l).diag (assemble c.N s l).above_diag
      (assemble c.N s l).below_diag b x) :
    ∀ i, i < c.N → 300 ≤ x i :=
  tridiag_lower_bound c.N _ _ _ b x (assemble_rowDominant c.N hn s hs l) hx 300
    (step_rhs_ge c exp dt s r T t l b hn hb hrhs)

/-- A solution of one step's system stays at or below any level `hi ≥ 300` that bounds the
right-hand side without its Dirichlet term. -/
theorem step_upper_bound (c : Consts K) (exp : K → K) (dt s : K) (r T : gsl_vector K) (t : K)
    (l : Locals K) (b x : gsl_vector K) (hi : K) (hn : 2 ≤ c.N) (hs : 0 ≤ s) (h300 : 300 ≤ hi)
    (hb : ∀ i, i < c.N → b i = rhs_entry c exp dt s r T t i)
    (hrhs : ∀ i, i < c.N → T i + c.k * dt * source_entry c exp r t i ≤ hi)
    (hx : TridiagSolves c.N (assemble c.N s l).diag (assemble c.N s l).above_diag
      (assemble c.N s l).below_diag b x) :
    ∀ i, i < c.N → x i ≤ hi := by
  apply tridiag_upper_bound c.N _ _ _ b x (assemble_rowDominant c.N hn s hs l) hx
  intro i hin
  rw [assemble_row_sum c.N hn s l i hin, hb i hin]
  unfold rhs_entry
  have h := hrhs i hin
  by_cases hl : i + 1 = c.N
  · have hl1 : i = c.N - 1 := by omega
    rw [if_pos hl, if_pos hl1]
    have hq : 0 ≤ s + s / ((2 * c.N : Nat) : K) :=
      add_nonneg hs (div_nonneg hs (Nat.cast_nonneg _))
    have := mul_le_mul_of_nonneg_right h300 hq
    linarith
  · have hl1 : ¬ (i = c.N - 1) := by omega
    rw [if_neg hl, if_neg hl1]
    linarith

/-- The source term lies between `0` and `1/a^2` when `exp` does between `0` and `1`. -/
theorem source_entry_bounds (c : Consts K) (exp : K → K) (r : gsl_vector K) (t : K) (i : Nat)
    (h0 : 0 ≤ exp (-t / 100)) (h1 : exp (-t / 100) ≤ 1) :
    0 ≤ source_entry c exp r t i ∧ source_entry c exp r t i ≤ 1 / (c.a * c.a) := by
  have ha : 0 ≤ c.a * c.a := mul_self_nonneg c.a
  unfold source_entry
  split_ifs
  · exact ⟨div_nonneg h0 ha, div_le_div_of_nonneg_right h1 ha⟩
  · exact ⟨le_refl 0, div_nonneg zero_le_one ha⟩

theorem timestep_nonneg (c : Consts K) (duration : K) (hd : 0 ≤ duration) :
    0 ≤ timestep c duration :=
  div_nonneg hd (Nat.cast_nonneg _)

theorem s_coeff_nonneg (c : Consts K) (duration : K) (r : gsl_vector K) (hk : 0 ≤ c.k)
    (hd : 0 ≤ duration) : 0 ≤ s_coeff c duration r :=
  div_nonneg (mul_nonneg hk (timestep_nonneg c duration hd)) (mul_self_nonneg _)

/-! ## Bounds along the run -/

/-- From a field that is `300` everywhere, the field after `m` iterations lies between `300` and
`300 + m * (k * timestep / a^2)`. -/
theorem solve_matrix_frame_bounds (c : Consts K) (exp : K → K) (duration : K) (st : State K)
    (hn : 2 ≤ c.N) (hk : 0 ≤ c.k) (hd : 0 ≤ duration)
    (hexp : ∀ t : K, 0 ≤ t → 0 ≤ exp (-t / 100) ∧ exp (-t / 100) ≤ 1)
    (h0 : ∀ i, i < c.N → st.T2 i = 300) (m : Nat) :
    ∀ i, i < c.N → 300 ≤ (solve_matrix_frame c exp duration st m).st.T2 i ∧
      (solve_matrix_frame c exp duration st m).st.T2 i
        ≤ 300 + (m : K) * (c.k * timestep c duration / (c.a * c.a)) := by
  have hdt := timestep_nonneg c duration hd
  have hs := s_coeff_nonneg c duration st.r hk hd
  have hkdt : 0 ≤ c.k * timestep c duration := mul_nonneg hk hdt
  have hq : 0 ≤ c.k * timestep c duration / (c.a * c.a) := div_nonneg hkdt (mul_self_nonneg _)
  induction m with
  | zero =>
    intro i hi
    have : (solve_matrix_frame c exp duration st 0).st.T2 i = 300 := h0 i hi
    rw [this]
    simp
  | succ m ih =>
    have hsol := solve_matrix_frame_solves c exp duration st hn hs m
    have hb := rhs_at_apply c exp duration st m
    have ht : (0 : K) ≤ (m : K) * timestep c duration := mul_nonneg (Nat.cast_nonneg _) hdt
    have hsrc : ∀ i, 0 ≤ c.k * timestep c duration
          * source_entry c exp st.r ((m : K) * timestep c duration) i ∧
        c.k * timestep c duration * source_entry c exp st.r ((m : K) * timestep c duration) i
          ≤ c.k * timestep c duration / (c.a * c.a) := by
      intro i
      obtain ⟨e0, e1⟩ := hexp _ ht
      obtain ⟨b0, b1⟩ := source_entry_bounds c exp st.r ((m : K) * timestep c duration) i e0 e1
      refine ⟨mul_nonneg hkdt b0, ?_⟩
      have := mul_le_mul_of_nonneg_left b1 hkdt
      rwa [mul_one_div] at this
    have hmq : 0 ≤ (m : K) * (c.k * timestep c duration / (c.a * c.a)) :=
      mul_nonneg (Nat.cast_nonneg _) hq
    intro i hi
    constructor
    · refine step_lower_bound c exp _ _ st.r _ _ _ _ _ hn hs hb ?_ hsol i hi
      intro j hj
      have := (ih j hj).1
      have := (hsrc j).1
      linarith
    · refine step_upper_bound c exp _ _ st.r _ _ _ _ _ _ hn hs ?_ hb ?_ hsol i hi
      · push_cast
        linarith
      · intro j hj
        have := (ih j hj).2
        have := (hsrc j).2
        push_cast
        linarith

/-! ## The state after `set_initial_conditions` -/

/-- The function `set_initial_conditions` in closed form. -/
theorem set_initial_conditions_eq (c : Consts K) (st : State K) :
    set_initial_conditions c st =
      { r := fun j => if j < c.N then (j : K) * c.RC / (((c.N : Int) - 1 : Int) : K) else st.r j
        time := gsl_vector_set (gsl_vector_set (gsl_vector_set st.time 0 0) 1 0) 2 0
        T0 := fun j => if j < c.N then 300 else st.T0 j
        T1 := fun j => if j < c.N then 300 else st.T1 j
        T2 := fun j => if j < c.N then 300 else st.T2 j } := by
  unfold set_initial_conditions
  rw [set_initial_conditions_loop]

theorem set_initial_conditions_T2 (c : Consts K) (st : State K) (i : Nat) (hi : i < c.N) :
    (set_initial_conditions c st).T2 i = 300 := by
  rw [set_initial_conditions_eq]
  simp [hi]

theorem set_initial_conditions_r (c : Consts K) (st : State K) (i : Nat) (hi : i < c.N) :
    (set_initial_conditions c st).r i = (i : K) * c.RC / (((c.N : Int) - 1 : Int) : K) := by
  rw [set_initial_conditions_eq]
  simp [hi]

/-- After `set_initial_conditions` the grid spacing `r[1]` is not zero. -/
theorem set_initial_conditions_r_one_ne (c : Consts K) (st : State K) (hn : 2 ≤ c.N)
    (hRC : c.RC ≠ 0) : (set_initial_conditions c st).r 1 ≠ 0 := by
  rw [set_initial_conditions_r c st 1 (by omega)]
  have h1 : ((((c.N : Int) - 1 : Int)) : K) ≠ 0 := by
    have : ((c.N : Int) - 1 : Int) ≠ 0 := by omega
    exact_mod_cast this
  simp only [Nat.cast_one, one_mul]
  exact div_ne_zero hRC h1

/-! ## The last grid point lies strictly above ambient -/

theorem assemble_below_neg (n : Nat) (s : K) (hs : 0 < s) (l : Locals K) (i : Nat)
    (h : i < n - 1) : (assemble n s l).below_diag i < 0 := by
  rw [assemble_below n s l i h]
  have h1 : (1 : K) < ((2 * (i + 2) : Nat) : K) := by
    have : 1 < 2 * (i + 2) := by omega
    exact_mod_cast this
  have : s / ((2 * (i + 2) : Nat) : K) < s := div_lt_self hs h1
  linarith

/-- If a solution of one step's system is `300` at the last grid point, it is `300` at every grid
point (each row forces the entry to its left down to `300`). -/
theorem step_all_ambient (c : Consts K) (exp : K → K) (dt s : K) (r T : gsl_vector K) (t : K)
    (l : Locals K) (b x : gsl_vector K) (hn : 2 ≤ c.N) (hs : 0 < s)
    (hb : ∀ i, i < c.N → b i = rhs_entry c exp dt s r T t i)
    (hrhs : ∀ i, i < c.N → 300 ≤ T i + c.k * dt * source_entry c exp r t i)
    (hx : TridiagSolves c.N (assemble c.N s l).diag (assemble c.N s l).above_diag
      (assemble c.N s l).below_diag b x)
    (hlast : x (c.N - 1) = 300) (d : Nat) :
    ∀ j, j < c.N → c.N - 1 - d ≤ j → x j = 300 := by
  have hge := step_lower_bound c exp dt s r T t l b x hn (le_of_lt hs) hb hrhs hx
  have hsum := step_rhs_ge c exp dt s r T t l b hn hb hrhs
  induction d with
  | zero =>
    intro j hj hle
    have : j = c.N - 1 := by omega
    rw [this, hlast]
  | succ d ih =>
    intro j hj hle
    by_cases hold : c.N - 1 - d ≤ j
    · exact ih j hj hold
    · have hj1 : j + 1 < c.N := by omega
      have hrow := hx (j + 1) hj1
      have hs1 := hsum (j + 1) hj1
      unfold row_apply at hrow
      have hsub : sub_entry (assemble c.N s l).below_diag (j + 1)
          = (assemble c.N s l).below_diag j := by simp [sub_entry]
      have hneg := assemble_below_neg c.N s hs l j (by omega)
      have hx1 : x (j + 1) = 300 := ih (j + 1) hj1 (by omega)
      have hx2 : super_entry c.N (assemble c.N s l).above_diag (j + 1) * x (j + 1 + 1)
          = super_entry c.N (assemble c.N s l).above_diag (j + 1) * 300 := by
        by_cases h2 : j + 1 + 1 < c.N
        · rw [ih (j + 1 + 1) h2 (by omega)]
        · simp [super_entry, h2]
      rw [hsub, Nat.add_sub_cancel, hx1, hx2] at hrow
      rw [hsub] at hs1
      have hle300 : x j ≤ 300 := by
        by_contra hgt
        push_neg at hgt
        have : (assemble c.N s l).below_diag j * x j
            < (assemble c.N s l).below_diag j * 300 :=
          mul_lt_mul_of_neg_left hgt hneg
        linarith
      exact le_antisymm hle300 (hge j hj)

/-- A solution of one step's system lies strictly above `300` at the last grid point as soon as
the right-hand side without its Dirichlet term exceeds `300` at the first grid point. -/
theorem step_last_gt (c : Consts K) (exp : K → K) (dt s : K) (r T : gsl_vector K) (t : K)
    (l : Locals K) (b x : gsl_vector K) (hn : 2 ≤ c.N) (hs : 0 < s)
    (hb : ∀ i, i < c.N → b i = rhs_entry c exp dt s r T t i)
    (hrhs : ∀ i, i < c.N → 300 ≤ T i + c.k * dt * source_entry c exp r t i)
    (hfirst : 300 < T 0 + c.k * dt * source_entry c exp r t 0)
    (hx : TridiagSolves c.N (assemble c.N s l).diag (assemble c.N s l).above_diag
      (assemble c.N s l).below_diag b x) :
    300 < x (c.N - 1) := by
  have hge := step_lower_bound c exp dt s r T t l b x hn (le_of_lt hs) hb hrhs hx
  rcases lt_or_eq_of_le (hge (c.N - 1) (by omega)) with h | h
  · exact h
  · exfalso
    have hall := step_all_ambient c exp dt s r T t l b x hn hs hb hrhs hx h.symm (c.N - 1)
    have h0 : (0 : Nat) < c.N := by omega
    have hrow := hx 0 h0
    have hsum := assemble_row_sum c.N hn s l 0 h0
    have hne : ¬ (0 + 1 = c.N) := by omega
    rw [if_neg hne] at hsum
    unfold row_apply at hrow
    rw [hall 0 h0 (by omega)] at hrow
    have h1 : super_entry c.N (assemble c.N s l).above_diag 0 * x (0 + 1)
        = super_entry c.N (assemble c.N s l).above_diag 0 * 300 := by
      rw [hall (0 + 1) (by omega) (by omega)]
    rw [h1, hb 0 h0] at hrow
    have hb0 : rhs_entry c exp dt s r T t 0 = T 0 + c.k * dt * source_entry c exp r t 0 := by
      unfold rhs_entry
      rw [if_neg (by omega)]
    rw [hb0] at hrow
    have hlin : (sub_entry (assemble c.N s l).below_diag 0 + (assemble c.N s l).diag 0
        + super_entry c.N (assemble c.N s l).above_diag 0) * 300
        = T 0 + c.k * dt * source_entry c exp r t 0 := by
      rw [← hrow]
      ring
    rw [hsum] at hlin
    linarith

/-! ## What the linear solve receives -/

/-- The inner loop leaves the coefficient vectors and the grid as they are. -/
theorem rhs_loop_fixed (c : Consts K) (exp : K → K) (dt s : K) (j : Nat) (f : Frame K) :
    (rhs_loop c exp dt s j f).loc.diag = f.loc.diag ∧
      (rhs_loop c exp dt s j f).loc.above_diag = f.loc.above_diag ∧
      (rhs_loop c exp dt s j f).loc.below_diag = f.loc.below_diag ∧
      (rhs_loop c exp dt s j f).st.r = f.st.r ∧
      (rhs_loop c exp dt s j f).st.T2 = f.st.T2 ∧
      (rhs_loop c exp dt s j f).st.time = gsl_vector_set f.st.time 1 ((j : K) * dt) := by
  unfold rhs_loop
  rw [rhs_body_loop]
  exact ⟨rfl, rfl, rfl, rfl, rfl, rfl⟩

/-- The source vector after the inner loop of iteration `j`. -/
theorem rhs_loop_source (c : Consts K) (exp : K → K) (dt s : K) (j : Nat) (f : Frame K) (i : Nat)
    (hi : i < c.N) :
    (rhs_loop c exp dt s j f).loc.source i = source_entry c exp f.st.r ((j : K) * dt) i := by
  unfold rhs_loop
  rw [rhs_body_loop]
  simp [hi, gsl_vector_set_apply]

/-- The right-hand side after the inner loop of iteration `j`. -/
theorem rhs_loop_b (c : Consts K) (exp : K → K) (dt s : K) (j : Nat) (f : Frame K) (i : Nat)
    (hi : i < c.N) :
    (rhs_loop c exp dt s j f).loc.b i
      = rhs_entry c exp dt s f.st.r f.st.T2 ((j : K) * dt) i := by
  unfold rhs_loop
  rw [rhs_body_loop]
  simp [hi, gsl_vector_set_apply]

/-- The slot `T[1]` after the inner loop holds the field that entered the iteration. -/
theorem rhs_loop_T1 (c : Consts K) (exp : K → K) (dt s : K) (j : Nat) (f : Frame K) (i : Nat)
    (hi : i < c.N) : (rhs_loop c exp dt s j f).st.T1 i = f.st.T2 i := by
  unfold rhs_loop
  rw [rhs_body_loop]
  simp [hi]

/-- The matrix handed to the linear solve in every iteration is the assembled one. -/
theorem solve_input_matrix (c : Consts K) (exp : K → K) (duration : K) (st : State K) (m : Nat) :
    (solve_input c exp duration st m).loc.diag
        = (assemble c.N (s_coeff c duration st.r) (solve_matrix_locals c)).diag ∧
      (solve_input c exp duration st m).loc.above_diag
        = (assemble c.N (s_coeff c duration st.r) (solve_matrix_locals c)).above_diag ∧
      (solve_input c exp duration st m).loc.below_diag
        = (assemble c.N (s_coeff c duration st.r) (solve_matrix_locals c)).below_diag := by
  obtain ⟨h1, h2, h3, _⟩ := rhs_loop_fixed c exp (timestep c duration)
    (s_coeff c duration st.r) m (solve_matrix_frame c exp duration st m)
  obtain ⟨g1, g2, g3, _⟩ := solve_matrix_frame_fixed c exp duration st m
  unfold solve_input
  rw [h1, h2, h3, g1, g2, g3]
  exact ⟨rfl, rfl, rfl⟩

/-! ## The clock -/

/-- When the source is evaluated in iteration `j` (counted from `0`) the clock reads
`j * timestep`. -/
theorem solve_input_time (c : Consts K) (exp : K → K) (duration : K) (st : State K) (j : Nat) :
    (solve_input c exp duration st j).st.time 1 = (j : K) * timestep c duration := by
  unfold solve_input
  rw [(rhs_loop_fixed c exp _ _ j _).2.2.2.2.2]
  simp [gsl_vector_set_apply]

/-- After iteration `j` (counted from `0`) the clock reads `j * timestep`. -/
theorem solve_matrix_frame_time (c : Consts K) (exp : K → K) (duration : K) (st : State K)
    (j : Nat) :
    (solve_matrix_frame c exp duration st (j + 1)).st.time 1 = (j : K) * timestep c duration := by
  rw [solve_matrix_frame_succ, step_body_eq]
  simp [gsl_vector_set_apply]

/-! ## The whole run from the initialised state -/

theorem s_coeff_pos (c : Consts K) (duration : K) (r : gsl_vector K) (hk : 0 < c.k)
    (hd : 0 < duration) (hM : 1 ≤ c.M) (hr : r 1 ≠ 0) : 0 < s_coeff c duration r := by
  have hMpos : (0 : K) < (c.M : K) := by exact_mod_cast hM
  exact div_pos (mul_pos hk (div_pos hd hMpos)) (mul_self_pos.mpr hr)

/-- After a run from the initialised state every entry of the field lies between `300` and
`300 + k * duration / a^2`. -/
theorem solve_matrix_bounds (c : Consts K) (exp : K → K) (duration : K) (st : State K)
    (hn : 2 ≤ c.N) (hM : 1 ≤ c.M) (hk : 0 ≤ c.k) (hd : 0 ≤ duration)
    (hexp : ∀ t : K, 0 ≤ t → 0 ≤ exp (-t / 100) ∧ exp (-t / 100) ≤ 1) :
    ∀ i, i < c.N →
      300 ≤ (solve_matrix c exp duration (set_initial_conditions c st)).T2 i ∧
      (solve_matrix c exp duration (set_initial_conditions c st)).T2 i
        ≤ 300 + c.k * duration / (c.a * c.a) := by
  intro i hi
  have h := solve_matrix_frame_bounds c exp duration (set_initial_conditions c st) hn hk hd hexp
    (fun j hj => set_initial_conditions_T2 c st j hj) c.M i hi
  have hMne : (c.M : K) ≠ 0 := by
    have : c.M ≠ 0 := by omega
    exact_mod_cast this
  have hcancel : (c.M : K) * (duration / (c.M : K)) = duration := mul_div_cancel₀ duration hMne
  have heq : (c.M : K) * (c.k * timestep c duration / (c.a * c.a))
      = c.k * duration / (c.a * c.a) := by
    unfold timestep
    calc (c.M : K) * (c.k * (duration / (c.M : K)) / (c.a * c.a))
        = c.k * ((c.M : K) * (duration / (c.M : K))) / (c.a * c.a) := by ring
      _ = c.k * duration / (c.a * c.a) := by rw [hcancel]
  rw [heq] at h
  exact h

/-- After a run of positive duration from the initialised state the last grid point lies strictly
above `300`. -/
theorem solve_matrix_last_gt (c : Consts K) (exp : K → K) (duration : K) (st : State K)
    (hn : 2 ≤ c.N) (hM : 1 ≤ c.M) (hk : 0 < c.k) (hd : 0 < duration) (ha : 0 < c.a)
    (hRC : c.RC ≠ 0)
    (hexp : ∀ t : K, 0 ≤ t → 0 < exp (-t / 100) ∧ exp (-t / 100) ≤ 1) :
    300 < (solve_matrix c exp duration (set_initial_conditions c st)).T2 (c.N - 1) := by
  obtain ⟨m, hm⟩ : ∃ m, c.M = m + 1 := ⟨c.M - 1, by omega⟩
  have hexp1 : ∀ t : K, 0 ≤ t → 0 ≤ exp (-t / 100) ∧ exp (-t / 100) ≤ 1 :=
    fun t ht => ⟨le_of_lt (hexp t ht).1, (hexp t ht).2⟩
  have hr := set_initial_conditions_r_one_ne c st hn hRC
  have hs := s_coeff_pos c duration _ hk hd hM hr
  have hdt : 0 < timestep c duration := by
    have hMpos : (0 : K) < (c.M : K) := by exact_mod_cast hM
    exact div_pos hd hMpos
  have hkdt : 0 < c.k * timestep c duration := mul_pos hk hdt
  have ht : (0 : K) ≤ (m : K) * timestep c duration :=
    mul_nonneg (Nat.cast_nonneg _) (le_of_lt hdt)
  have hsol := solve_matrix_frame_solves c exp duration (set_initial_conditions c st) hn
    (le_of_lt hs) m
  have hb := rhs_at_apply c exp duration (set_initial_conditions c st) m
  have hbd := solve_matrix_frame_bounds c exp duration (set_initial_conditions c st) hn
    (le_of_lt hk) (le_of_lt hd) hexp1 (fun j hj => set_initial_conditions_T2 c st j hj) m
  unfold solve_matrix
  rw [hm]
  refine step_last_gt c exp _ _ (set_initial_conditions c st).r _ _ (solve_matrix_locals c)
    _ _ hn hs hb ?_ ?_ hsol
  · intro j hj
    obtain ⟨e0, e1⟩ := hexp1 _ ht
    have := (source_entry_bounds c exp (set_initial_conditions c st).r
      ((m : K) * timestep c duration) j e0 e1).1
    have := mul_nonneg (le_of_lt hkdt) this
    have := (hbd j hj).1
    linarith
  · have h0 : (0 : Nat) < c.N := by omega
    have hr0 : (set_initial_conditions c st).r 0 ≤ c.a := by
      rw [set_initial_conditions_r c st 0 h0]
      simp [le_of_lt ha]
    have hsrc : 0 < source_entry c exp (set_initial_conditions c st).r
        ((m : K) * timestep c duration) 0 := by
      unfold source_entry
      rw [if_pos hr0]
      exact div_pos (hexp _ ht).1 (mul_pos ha ha)
    have := mul_pos hkdt hsrc
    have := (hbd 0 h0).1
    linarith

theorem real_exp_range (t : ℝ) (ht : 0 ≤ t) :
    0 < Real.exp (-t / 100) ∧ Real.exp (-t / 100) ≤ 1 := by
  refine ⟨Real.exp_pos _, Real.exp_le_one_iff.mpr ?_⟩
  linarith

/-! ## The source vector -/

theorem source_at_apply (c : Consts K) (exp : K → K) (dt s : K) (f : Frame K) (t : K) (i : Nat)
    (hi : i < c.N) : source_at c exp dt s f t i = source_entry c exp f.st.r t i := by
  unfold source_at
  rw [rhs_body_loop]
  simp [hi, gsl_vector_set_apply]

/-! ## Runs do not see each other -/

/-- The outer loop writes `T[1]` and `T[2]` only at the grid indices and the clock only in slot
`1`. -/
theorem solve_matrix_frame_outside (c : Consts K) (exp : K → K) (duration : K) (st : State K)
    (m : Nat) :
    (∀ j, c.N ≤ j → (solve_matrix_frame c exp duration st m).st.T1 j = st.T1 j ∧
      (solve_matrix_frame c exp duration st m).st.T2 j = st.T2 j) ∧
    (∀ j, j ≠ 1 → (solve_matrix_frame c exp duration st m).st.time j = st.time j) := by
  induction m with
  | zero => exact ⟨fun j _ => ⟨rfl, rfl⟩, fun j _ => rfl⟩
  | succ m ih =>
    rw [solve_matrix_frame_succ, step_body_eq]
    refine ⟨?_, ?_⟩
    · intro j hj
      have hlt : ¬ (j < c.N) := by omega
      simp only [gsl_linalg_solve_tridiag, if_neg hlt]
      exact ⟨(ih.1 j hj).1, (ih.1 j hj).2⟩
    · intro j hj
      simp only [gsl_vector_set_apply, if_neg hj]
      exact ih.2 j hj

/-- Whatever `solve_matrix` wrote is overwritten by `set_initial_conditions`. -/
theorem set_initial_conditions_solve_matrix (c : Consts K) (exp : K → K) (duration : K)
    (st : State K) :
    set_initial_conditions c (solve_matrix c exp duration st) = set_initial_conditions c st := by
  obtain ⟨_, _, _, hr, hT0⟩ := solve_matrix_frame_fixed c exp duration st c.M
  obtain ⟨hT, htime⟩ := solve_matrix_frame_outside c exp duration st c.M
  rw [set_initial_conditions_eq, set_initial_conditions_eq]
  unfold solve_matrix
  rw [hr, hT0]
  congr 1
  · funext j
    simp only [gsl_vector_set_apply]
    by_cases h2 : j = 2
    · simp [h2]
    · by_cases h1 : j = 1
      · simp [h1]
      · by_cases h0 : j = 0
        · simp [h0]
        · simp only [if_neg h2, if_neg h1, if_neg h0]
          exact htime j h1
  · funext j
    by_cases h : j < c.N
    · simp [h]
    · simp only [if_neg h]
      exact (hT j (by omega)).1
  · funext j
    by_cases h : j < c.N
    · simp [h]
    · simp only [if_neg h]
      exact (hT j (by omega)).2

/-- Running `set_initial_conditions` a second time changes nothing. -/
theorem set_initial_conditions_twice (c : Consts K) (st : State K) :
    set_initial_conditions c (set_initial_conditions c st) = set_initial_conditions c st := by
  rw [set_initial_conditions_eq c (set_initial_conditions c st), set_initial_conditions_eq c st]
  congr 1
  · funext j
    by_cases h : j < c.N <;> simp [h]
  · funext j
    simp only [gsl_vector_set_apply]
    by_cases h2 : j = 2
    · simp [h2]
    · by_cases h1 : j = 1
      · simp [h1]
      · by_cases h0 : j = 0
        · simp [h0]
        · simp [h2, h1, h0]
  · funext j
    by_cases h : j < c.N <;> simp [h]
  · funext j
    by_cases h : j < c.N <;> simp [h]
  · funext j
    by_cases h : j < c.N <;> simp [h]

/-! ## The archive -/

/-- The copy loop of `store_data` after `n` rounds. -/
theorem store_data_loop (st : State K) (T_final : Nat → gsl_vector K) (j n : Nat) :
    forLoop n (store_data_body st j) T_final =
      fun m => if m = j then (fun i => if i < n then st.T2 i else T_final j i)
        else T_final m := by
  induction n with
  | zero =>
    funext m
    by_cases h : m = j <;> simp [forLoop, h]
  | succ n ih =>
    rw [forLoop_succ, ih]
    funext m
    by_cases h : m = j
    · simp only [store_data_body, if_pos h, if_true, gsl_vector_get]
      funext i
      simp only [gsl_vector_set_apply]
      by_cases h1 : i = n <;> by_cases h2 : i < n <;>
        simp [h1, h2, Nat.lt_succ_iff_lt_or_eq]
    · simp [store_data_body, h]

/-! ## The runs of `main` -/

/-- A run from an initialised state, archived in slot `j`: the working state is initialised again
and slot `j` holds the field of the run. -/
theorem run_and_store_eq (c : Consts K) (exp : K → K) (duration : K) (j : Nat) (st : State K)
    (T_final : Nat → gsl_vector K) :
    run_and_store c exp duration j (set_initial_conditions c st, T_final) =
      (set_initial_conditions c st,
        fun m => if m = j then
            (fun i => if i < c.N then
              (solve_matrix c exp duration (set_initial_conditions c st)).T2 i
              else T_final j i)
          else T_final m) := by
  unfold run_and_store store_data
  rw [store_data_loop, set_initial_conditions_solve_matrix, set_initial_conditions_twice]

/-- Beyond the grid indices the field of a run from the allocated vectors is as allocated. -/
theorem solve_matrix_alloc_outside (c : Consts K) (exp : K → K) (duration : K) (i : Nat)
    (hi : c.N ≤ i) :
    (solve_matrix c exp duration (set_initial_conditions c (main_alloc c))).T2 i = 0 := by
  unfold solve_matrix
  rw [((solve_matrix_frame_outside c exp duration _ c.M).1 i hi).2, set_initial_conditions_eq]
  have hlt : ¬ (i < c.N) := by omega
  simp [hlt, main_alloc, gsl_vector_alloc]

/-- The archive slot a run from the allocated vectors fills is the field of that run. -/
theorem archived_field_eq (c : Consts K) (exp : K → K) (duration : K) :
    (fun i => if i < c.N then
        (solve_matrix c exp duration (set_initial_conditions c (main_alloc c))).T2 i
      else (0 : K))
      = (solve_matrix c exp duration (set_initial_conditions c (main_alloc c))).T2 := by
  funext i
  by_cases hi : i < c.N
  · simp [hi]
  · simp only [if_neg hi]
    exact (solve_matrix_alloc_outside c exp duration i (by omega)).symm

/-! ## The text `save_output` writes -/

/-- One round of the loop over the grid points appends row `i`, and a newline unless the row is
the last. -/
theorem save_output_body_eq (c : Consts K) (fmt : K → List Char) (T_final : Nat → gsl_vector K)
    (r : gsl_vector K) (i : Nat) (out : List Char) :
    save_output_body c fmt T_final r i out =
      out ++ (output_row fmt T_final r i ++ if i ≠ c.N - 1 then [newline] else []) := by
  unfold save_output_body
  by_cases h : i ≠ c.N - 1
  · simp [h, forLoop, save_output_column, output_row, gsl_vector_get, List.append_assoc]
  · simp [h, forLoop, save_output_column, output_row, gsl_vector_get, List.append_assoc]

/-- The loop over the grid points after `n` rounds. -/
theorem save_output_loop (c : Consts K) (fmt : K → List Char) (T_final : Nat → gsl_vector K)
    (r : gsl_vector K) (n : Nat) (out : List Char) :
    forLoop n (save_output_body c fmt T_final r) out =
      out ++ ((List.range n).map
        (fun i => output_row fmt T_final r i ++ if i ≠ c.N - 1 then [newline] else [])).flatten := by
  induction n with
  | zero => simp [forLoop]
  | succ n ih =>
    rw [forLoop_succ, ih, save_output_body_eq, List.range_succ, List.map_append,
      List.flatten_append]
    simp [List.append_assoc]

/-- Rows each followed by a separator, then a last row without one, are the rows joined by the
separator. -/
theorem flatten_sep_eq_intercalate (sep : List Char) (f : Nat → List Char) (m a : Nat) :
    ((List.range' a m).map (fun i => f i ++ sep)).flatten ++ f (a + m)
      = sep.intercalate ((List.range' a (m + 1)).map f) := by
  induction m generalizing a with
  | zero => simp [List.intercalate]
  | succ m ih =>
    have h := ih (a + 1)
    rw [List.range'_succ, List.map_cons, List.flatten_cons, List.append_assoc]
    have e : a + 1 + m = a + (m + 1) := by omega
    rw [e] at h
    rw [h, List.range'_succ a (m + 1), List.map_cons, List.range'_succ (a + 1) m, List.map_cons]
    simp [List.intercalate, List.intersperse, List.append_assoc]

/-- The text written for `N ≥ 1` grid points is the `N` rows joined by single newlines. -/
theorem save_output_loop_intercalate (c : Consts K) (fmt : K → List Char)
    (T_final : Nat → gsl_vector K) (r : gsl_vector K) (hN : 1 ≤ c.N) :
    forLoop c.N (save_output_body c fmt T_final r) []
      = [newline].intercalate ((List.range c.N).map (output_row fmt T_final r)) := by
  obtain ⟨m, hm⟩ : ∃ m, c.N = m + 1 := ⟨c.N - 1, by omega⟩
  have h2 := flatten_sep_eq_intercalate [newline] (output_row fmt T_final r) m 0
  rw [Nat.zero_add, ← List.range_eq_range', ← List.range_eq_range'] at h2
  rw [save_output_loop, hm, List.nil_append, ← h2, List.range_succ, List.map_append,
    List.flatten_append]
  have h1 : (List.range m).map
      (fun i => output_row fmt T_final r i ++ if i ≠ m + 1 - 1 then [newline] else [])
      = (List.range m).map (fun i => output_row fmt T_final r i ++ [newline]) := by
    apply List.map_congr_left
    intro i hi
    have : i ≠ m := by
      have := List.mem_range.mp hi
      omega
    simp [this]
  rw [h1]
  simp

theorem blank_ne_newline : blank ≠ newline := by decide

/-- A row holds no newline when the conversion `%lf` produces none. -/
theorem newline_not_mem_output_row (fmt : K → List Char) (T_final : Nat → gsl_vector K)
    (r : gsl_vector K) (i : Nat) (hfmt : ∀ x, newline ∉ fmt x) :
    newline ∉ output_row fmt T_final r i := by
  have hb : ¬ (newline = blank) := fun h => blank_ne_newline h.symm
  unfold output_row
  simp [hfmt, hb]

/-! ## Uniqueness of the solution -/

/-- Two solutions of the same system with the sign pattern of `RowDominant` agree on every row. -/
theorem tridiag_unique (n : Nat) (diag above below rhs x y : gsl_vector K)
    (hd : RowDominant n diag above below) (hx : TridiagSolves n diag above below rhs x)
    (hy : TridiagSolves n diag above below rhs y) : ∀ i, i < n → x i = y i := by
  have hz : TridiagSolves n diag above below (fun _ => 0) (fun i => x i - y i) := by
    intro i hi
    have h1 := hx i hi
    have h2 := hy i hi
    unfold row_apply at h1 h2 ⊢
    linear_combination h1 - h2
  have hlo := tridiag_lower_bound n diag above below (fun _ => 0) (fun i => x i - y i) hd hz 0
    (fun i _ => by simp)
  have hhi := tridiag_upper_bound n diag above below (fun _ => 0) (fun i => x i - y i) hd hz 0
    (fun i _ => by simp)
  intro i hi
  have h1 : 0 ≤ x i - y i := hlo i hi
  have h2 : x i - y i ≤ 0 := hhi i hi
  linarith

/-- With the sign pattern of `RowDominant` every diagonal entry exceeds the sum of the absolute
values of the off-diagonal entries of its row. -/
theorem rowDominant_strict (n : Nat) (diag above below : gsl_vector K)
    (hd : RowDominant n diag above below) (i : Nat) (hi : i < n) :
    |sub_entry below i| + |super_entry n above i| < diag i := by
  obtain ⟨h1, h2, h3⟩ := hd i hi
  rw [abs_of_nonpos h1, abs_of_nonpos h2]
  linarith

/-! ## The claims -/

/-- C1: for every `s` and every grid size `N > 2`, every interior row `i` (`1 ≤ i ≤ N-2`) of the
matrix that `solve_matrix` assembles has coefficient sum
`below_diag[i-1] + diag[i] + above_diag[i] = 1`; this holds of `assemble` for every `s`, and of the
matrix handed to the linear solve in every iteration. -/
theorem interior_row_sum_eq_one (c : Consts K) (exp : K → K) (duration : K) (st : State K)
    (m i : Nat) (hN : 2 < c.N) (h1 : 1 ≤ i) (h2 : i ≤ c.N - 2) :
    (∀ (s : K) (l : Locals K),
      (assemble c.N s l).below_diag (i - 1) + (assemble c.N s l).diag i
        + (assemble c.N s l).above_diag i = 1) ∧
    (solve_input c exp duration st m).loc.below_diag (i - 1)
      + (solve_input c exp duration st m).loc.diag i
      + (solve_input c exp duration st m).loc.above_diag i = 1 := by
  have key : ∀ (s : K) (l : Locals K),
      (assemble c.N s l).below_diag (i - 1) + (assemble c.N s l).diag i
        + (assemble c.N s l).above_diag i = 1 := by
    intro s l
    have hi : i < c.N := by omega
    have hsum := assemble_row_sum c.N (by omega) s l i hi
    have hne : ¬ (i + 1 = c.N) := by omega
    have hlt : i + 1 < c.N := by omega
    have hpos : 0 < i := by omega
    rw [if_neg hne] at hsum
    simpa [sub_entry, super_entry, hlt, hpos] using hsum
  refine ⟨key, ?_⟩
  obtain ⟨e1, e2, e3⟩ := solve_input_matrix c exp duration st m
  rw [e1, e2, e3]
  exact key _ _

/-- C1 at the reference constants, row `1` of the first iteration of a run of duration `10`. -/
theorem interior_row_sum_eq_one_witness :
    2 < (reference ℚ).N ∧ 1 ≤ 1 ∧ 1 ≤ (reference ℚ).N - 2 ∧
    ((∀ (s : ℚ) (l : Locals ℚ),
      (assemble (reference ℚ).N s l).below_diag (1 - 1) + (assemble (reference ℚ).N s l).diag 1
        + (assemble (reference ℚ).N s l).above_diag 1 = 1) ∧
    (solve_input (reference ℚ) (fun _ => 1) 10
        (set_initial_conditions (reference ℚ) (main_alloc (reference ℚ))) 0).loc.below_diag (1 - 1)
      + (solve_input (reference ℚ) (fun _ => 1) 10
        (set_initial_conditions (reference ℚ) (main_alloc (reference ℚ))) 0).loc.diag 1
      + (solve_input (reference ℚ) (fun _ => 1) 10
        (set_initial_conditions (reference ℚ) (main_alloc (reference ℚ))) 0).loc.above_diag 1
      = 1) :=
  ⟨by decide, by decide, by decide,
    interior_row_sum_eq_one (reference ℚ) (fun _ => 1) 10
      (set_initial_conditions (reference ℚ) (main_alloc (reference ℚ))) 0 1
      (by decide) (by decide) (by decide)⟩

/-- C2: for every duration and every grid with `r[1] ≠ 0`, `solve_matrix` computes
`timestep = duration / M` and `s = k * timestep / r[1]^2`, and the coefficient arrays handed to
the linear solve in every iteration satisfy `above_diag[i] = -s - s/(2*(i+1))` and
`below_diag[i] = -s + s/(2*(i+2))` for `0 ≤ i < N-1`, `diag[i] = 1 + 2s` for `1 ≤ i ≤ N-1`, and
`diag[0] = 1 + s + s/2`. -/
theorem coefficients_assembled (c : Consts K) (exp : K → K) (duration : K) (st : State K)
    (m : Nat) (_hr : st.r 1 ≠ 0) :
    timestep c duration = duration / (c.M : K) ∧
    s_coeff c duration st.r = c.k * timestep c duration / (st.r 1) ^ 2 ∧
    (∀ i, i < c.N - 1 →
      (solve_input c exp duration st m).loc.above_diag i
        = -s_coeff c duration st.r - s_coeff c duration st.r / (2 * ((i : K) + 1)) ∧
      (solve_input c exp duration st m).loc.below_diag i
        = -s_coeff c duration st.r + s_coeff c duration st.r / (2 * ((i : K) + 2))) ∧
    (∀ i, 1 ≤ i → i ≤ c.N - 1 →
      (solve_input c exp duration st m).loc.diag i = 1 + 2 * s_coeff c duration st.r) ∧
    (solve_input c exp duration st m).loc.diag 0
      = 1 + s_coeff c duration st.r + s_coeff c duration st.r / 2 := by
  obtain ⟨e1, e2, e3⟩ := solve_input_matrix c exp duration st m
  rw [e1, e2, e3]
  refine ⟨rfl, ?_, ?_, ?_, ?_⟩
  · unfold s_coeff gsl_vector_get
    rw [pow_two]
  · intro i hi
    rw [assemble_above _ _ _ i hi, assemble_below _ _ _ i hi]
    push_cast
    exact ⟨rfl, rfl⟩
  · intro i h1 h2
    exact assemble_diag_pos _ _ _ i h1 h2
  · exact assemble_diag_zero _ _ _

/-- C2 at the reference constants, for the second iteration of a run of duration `10` from the
initialised state. -/
theorem coefficients_assembled_witness :
    (reference_start ℚ).r 1 ≠ 0 ∧
    (timestep (reference ℚ) 10 = 10 / ((reference ℚ).M : ℚ) ∧
    s_coeff (reference ℚ) 10 (reference_start ℚ).r
      = (reference ℚ).k * timestep (reference ℚ) 10 / ((reference_start ℚ).r 1) ^ 2 ∧
    (∀ i, i < (reference ℚ).N - 1 →
      (solve_input (reference ℚ) (fun _ => 1) 10 (reference_start ℚ) 1).loc.above_diag i
        = -s_coeff (reference ℚ) 10 (reference_start ℚ).r
          - s_coeff (reference ℚ) 10 (reference_start ℚ).r / (2 * ((i : ℚ) + 1)) ∧
      (solve_input (reference ℚ) (fun _ => 1) 10 (reference_start ℚ) 1).loc.below_diag i
        = -s_coeff (reference ℚ) 10 (reference_start ℚ).r
          + s_coeff (reference ℚ) 10 (reference_start ℚ).r / (2 * ((i : ℚ) + 2))) ∧
    (∀ i, 1 ≤ i → i ≤ (reference ℚ).N - 1 →
      (solve_input (reference ℚ) (fun _ => 1) 10 (reference_start ℚ) 1).loc.diag i
        = 1 + 2 * s_coeff (reference ℚ) 10 (reference_start ℚ).r) ∧
    (solve_input (reference ℚ) (fun _ => 1) 10 (reference_start ℚ) 1).loc.diag 0
      = 1 + s_coeff (reference ℚ) 10 (reference_start ℚ).r
        + s_coeff (reference ℚ) 10 (reference_start ℚ).r / 2) :=
  ⟨set_initial_conditions_r_one_ne (reference ℚ) _ (by decide) (by norm_num [reference]),
    coefficients_assembled (reference ℚ) (fun _ => 1) 10 (reference_start ℚ) 1
      (set_initial_conditions_r_one_ne (reference ℚ) _ (by decide) (by norm_num [reference]))⟩

/-- C3: in every iteration `m` the right-hand side handed to the linear solve is
`b[i] = T_prev[i] + k * timestep * source[i]` for `0 ≤ i < N-1` and
`b[N-1] = T_prev[N-1] + k * timestep * source[N-1] + 300 * (s + s/(2N))`, where `T_prev` is the
field `T[2]` left by the previous iteration: the initial field when `m = 0`, and the output of
the previous linear solve afterwards.  The Dirichlet term appears in the last entry only. -/
theorem rhs_of_iteration (c : Consts K) (exp : K → K) (duration : K) (st : State K) (m : Nat)
    (hN : 1 ≤ c.N) :
    (solve_matrix_frame c exp duration st 0).st.T2 = st.T2 ∧
    (solve_matrix_frame c exp duration st (m + 1)).st.T2
      = gsl_linalg_solve_tridiag c.N (solve_input c exp duration st m).loc.diag
          (solve_input c exp duration st m).loc.above_diag
          (solve_input c exp duration st m).loc.below_diag
          (solve_input c exp duration st m).loc.b (solve_input c exp duration st m).st.T2 ∧
    (∀ i, i < c.N - 1 →
      (solve_input c exp duration st m).loc.b i
        = (solve_matrix_frame c exp duration st m).st.T2 i
          + c.k * timestep c duration * (solve_input c exp duration st m).loc.source i) ∧
    (solve_input c exp duration st m).loc.b (c.N - 1)
      = (solve_matrix_frame c exp duration st m).st.T2 (c.N - 1)
        + c.k * timestep c duration * (solve_input c exp duration st m).loc.source (c.N - 1)
        + 300 * (s_coeff c duration st.r + s_coeff c duration st.r / (2 * (c.N : K))) := by
  refine ⟨rfl, rfl, ?_, ?_⟩
  · intro i hi
    have hi1 : i < c.N := by omega
    have hne : ¬ (i = c.N - 1) := by omega
    unfold solve_input
    rw [rhs_loop_b _ _ _ _ _ _ i hi1, rhs_loop_source _ _ _ _ _ _ i hi1]
    unfold rhs_entry
    rw [if_neg hne]
  · have hi1 : c.N - 1 < c.N := by omega
    unfold solve_input
    rw [rhs_loop_b _ _ _ _ _ _ _ hi1, rhs_loop_source _ _ _ _ _ _ _ hi1]
    unfold rhs_entry
    rw [if_pos rfl]
    push_cast
    rfl

/-- C3 at the reference constants, for the second iteration of a run of duration `10` from the
initialised state. -/
theorem rhs_of_iteration_witness :
    1 ≤ (reference ℚ).N ∧
    ((solve_matrix_frame (reference ℚ) (fun _ => 1) 10 (reference_start ℚ) 0).st.T2
      = (reference_start ℚ).T2 ∧
    (solve_matrix_frame (reference ℚ) (fun _ => 1) 10 (reference_start ℚ) (1 + 1)).st.T2
      = gsl_linalg_solve_tridiag (reference ℚ).N
          (solve_input (reference ℚ) (fun _ => 1) 10 (reference_start ℚ) 1).loc.diag
          (solve_input (reference ℚ) (fun _ => 1) 10 (reference_start ℚ) 1).loc.above_diag
          (solve_input (reference ℚ) (fun _ => 1) 10 (reference_start ℚ) 1).loc.below_diag
          (solve_input (reference ℚ) (fun _ => 1) 10 (reference_start ℚ) 1).loc.b
          (solve_input (reference ℚ) (fun _ => 1) 10 (reference_start ℚ) 1).st.T2 ∧
    (∀ i, i < (reference ℚ).N - 1 →
      (solve_input (reference ℚ) (fun _ => 1) 10 (reference_start ℚ) 1).loc.b i
        = (solve_matrix_frame (reference ℚ) (fun _ => 1) 10 (reference_start ℚ) 1).st.T2 i
          + (reference ℚ).k * timestep (reference ℚ) 10
            * (solve_input (reference ℚ) (fun _ => 1) 10 (reference_start ℚ) 1).loc.source i) ∧
    (solve_input (reference ℚ) (fun _ => 1) 10 (reference_start ℚ) 1).loc.b ((reference ℚ).N - 1)
      = (solve_matrix_frame (reference ℚ) (fun _ => 1) 10 (reference_start ℚ) 1).st.T2
          ((reference ℚ).N - 1)
        + (reference ℚ).k * timestep (reference ℚ) 10
          * (solve_input (reference ℚ) (fun _ => 1) 10 (reference_start ℚ) 1).loc.source
            ((reference ℚ).N - 1)
        + 300 * (s_coeff (reference ℚ) 10 (reference_start ℚ).r
          + s_coeff (reference ℚ) 10 (reference_start ℚ).r / (2 * ((reference ℚ).N : ℚ)))) :=
  ⟨by decide, rhs_of_iteration (reference ℚ) (fun _ => 1) 10 (reference_start ℚ) 1 (by decide)⟩

/-- C4 (the code against the claim): in a run of duration `10` at the reference constants the
source of the first iteration is evaluated with the clock at `0`, not at one timestep; the source
of the last iteration is evaluated with the clock at `9999/1000`, not at the duration `10`; and the
clock reads `9999/1000` when `solve_matrix` returns.  In general iteration `j` (counted from `1`)
works at `(j - 1) * timestep`. -/
theorem clock_lags_one_timestep (exp : K → K) (st : State K) :
    (solve_input (reference K) exp 10 st 0).st.time 1 = 0 ∧
    (solve_input (reference K) exp 10 st 9999).st.time 1 = 9999 / 1000 ∧
    (solve_input (reference K) exp 10 st 9999).loc.source 0
      = source_entry (reference K) exp st.r (9999 / 1000) 0 ∧
    (solve_matrix (reference K) exp 10 st).time 1 = 9999 / 1000 ∧
    (solve_matrix (reference K) exp 10 st).time 1 ≠ 10 := by
  have hdt : timestep (reference K) 10 = 1 / 1000 := by
    unfold timestep reference
    norm_num
  have hlast : ((9999 : Nat) : K) * timestep (reference K) 10 = 9999 / 1000 := by
    rw [hdt]
    norm_num
  have hret : (solve_matrix (reference K) exp 10 st).time 1 = 9999 / 1000 := by
    have h := solve_matrix_frame_time (reference K) exp 10 st 9999
    rw [hlast] at h
    exact h
  refine ⟨?_, ?_, ?_, hret, ?_⟩
  · rw [solve_input_time]
    simp
  · rw [solve_input_time, hlast]
  · unfold solve_input
    rw [rhs_loop_source _ _ _ _ _ _ 0 (by simp [reference]), hlast]
    rw [(solve_matrix_frame_fixed (reference K) exp 10 st 9999).2.2.2.1]
  · rw [hret]
    norm_num

/-- C5 (the code against the claim): after the run of duration `10` from the initialised state, at
the reference constants and with the exact linear solve, the temperature at the last grid point
(index `99`) is strictly above `300`, so it does not equal the ambient temperature. -/
theorem last_point_above_ambient (st : State ℝ) :
    300 < (solve_matrix (reference ℝ) Real.exp 10
      (set_initial_conditions (reference ℝ) st)).T2 99 ∧
    (solve_matrix (reference ℝ) Real.exp 10
      (set_initial_conditions (reference ℝ) st)).T2 99 ≠ 300 := by
  have h := solve_matrix_last_gt (reference ℝ) Real.exp 10 st (by decide) (by decide)
    (by norm_num [reference]) (by norm_num) (by norm_num [reference])
    (by norm_num [reference]) real_exp_range
  have h99 : (reference ℝ).N - 1 = 99 := rfl
  rw [h99] at h
  exact ⟨h, ne_of_gt h⟩

/-- C6: at the reference constants, with exact arithmetic and the exact linear solve, the field
produced by `solve_matrix` from the initialised state tends to the uniform `300` field as the
duration tends to `0` from above: for every `eps > 0` there is a `delta > 0` such that for every
duration with `0 < duration < delta` every entry of the resulting field is within `eps` of
`300`. -/
theorem field_tends_to_ambient (eps : ℝ) (heps : 0 < eps) :
    ∃ delta : ℝ, 0 < delta ∧ ∀ (duration : ℝ) (st : State ℝ), 0 < duration → duration < delta →
      ∀ i, i < (reference ℝ).N →
        |(solve_matrix (reference ℝ) Real.exp duration
          (set_initial_conditions (reference ℝ) st)).T2 i - 300| < eps := by
  refine ⟨eps * 625 / 20000000, by positivity, ?_⟩
  intro duration st hd hlt i hi
  have h := solve_matrix_bounds (reference ℝ) Real.exp duration st (by decide) (by decide)
    (by norm_num [reference]) (le_of_lt hd)
    (fun t ht => ⟨le_of_lt (real_exp_range t ht).1, (real_exp_range t ht).2⟩) i hi
  obtain ⟨hlo, hhi⟩ := h
  have hk : (reference ℝ).k * duration / ((reference ℝ).a * (reference ℝ).a)
      = 20000000 * duration / 625 := by
    simp only [reference]
    norm_num
  rw [hk] at hhi
  rw [abs_lt]
  constructor
  · linarith
  · have : 20000000 * duration / 625 < eps := by
      rw [div_lt_iff₀ (by norm_num)]
      rw [lt_div_iff₀ (by norm_num)] at hlt
      linarith
    linarith

/-- C6 at the tolerance `1`. -/
theorem field_tends_to_ambient_witness :
    (0 : ℝ) < 1 ∧
    ∃ delta : ℝ, 0 < delta ∧ ∀ (duration : ℝ) (st : State ℝ), 0 < duration → duration < delta →
      ∀ i, i < (reference ℝ).N →
        |(solve_matrix (reference ℝ) Real.exp duration
          (set_initial_conditions (reference ℝ) st)).T2 i - 300| < 1 :=
  ⟨one_pos, field_tends_to_ambient 1 one_pos⟩

/-- C7: the heat-source term `solve_matrix` computes when the clock reads `t` is
`exp(-t/100)/a^2` at every grid point with `r[i] ≤ a` and `0` at every grid point with `r[i] > a`;
at a grid point inside the rod the value at a later time `t2 > t1` is strictly less than the value
at `t1`.  The last part says that the source vector of iteration `j` of `solve_matrix` is the one
described, at the clock value of that iteration. -/
theorem source_term_decays (c : Consts ℝ) (dt s : ℝ) (f : Frame ℝ) (i : Nat) (t1 t2 : ℝ)
    (hi : i < c.N) (ha : c.a ≠ 0) (ht : t1 < t2) :
    (f.st.r i ≤ c.a → source_at c Real.exp dt s f t1 i = Real.exp (-t1 / 100) / c.a ^ 2) ∧
    (c.a < f.st.r i → source_at c Real.exp dt s f t1 i = 0) ∧
    (f.st.r i ≤ c.a → source_at c Real.exp dt s f t2 i < source_at c Real.exp dt s f t1 i) ∧
    (∀ (duration : ℝ) (st : State ℝ) (j : Nat),
      (solve_input c Real.exp duration st j).loc.source
        = source_at c Real.exp (timestep c duration) (s_coeff c duration st.r)
            (solve_matrix_frame c Real.exp duration st j) ((j : ℝ) * timestep c duration)) := by
  rw [source_at_apply c Real.exp dt s f t1 i hi, source_at_apply c Real.exp dt s f t2 i hi]
  unfold source_entry
  refine ⟨?_, ?_, ?_, ?_⟩
  · intro h
    rw [if_pos h, pow_two]
  · intro h
    rw [if_neg (not_le.mpr h)]
  · intro h
    rw [if_pos h, if_pos h]
    have hpos : 0 < c.a * c.a := mul_self_pos.mpr ha
    have hexp : Real.exp (-t2 / 100) < Real.exp (-t1 / 100) := by
      apply Real.exp_lt_exp.mpr
      linarith
    exact div_lt_div_of_pos_right hexp hpos
  · intro duration st j
    rfl

/-- C7 at the reference constants: the first grid point, times `0` and `1`. -/
theorem source_term_decays_witness :
    0 < (reference ℝ).N ∧ (reference ℝ).a ≠ 0 ∧ (0 : ℝ) < 1 ∧
    (((solve_matrix_enter (reference ℝ) 10 (reference_start ℝ)).st.r 0 ≤ (reference ℝ).a →
      source_at (reference ℝ) Real.exp (1 / 1000) 1
        (solve_matrix_enter (reference ℝ) 10 (reference_start ℝ)) 0 0
        = Real.exp (-0 / 100) / (reference ℝ).a ^ 2) ∧
    ((reference ℝ).a < (solve_matrix_enter (reference ℝ) 10 (reference_start ℝ)).st.r 0 →
      source_at (reference ℝ) Real.exp (1 / 1000) 1
        (solve_matrix_enter (reference ℝ) 10 (reference_start ℝ)) 0 0 = 0) ∧
    ((solve_matrix_enter (reference ℝ) 10 (reference_start ℝ)).st.r 0 ≤ (reference ℝ).a →
      source_at (reference ℝ) Real.exp (1 / 1000) 1
        (solve_matrix_enter (reference ℝ) 10 (reference_start ℝ)) 1 0
        < source_at (reference ℝ) Real.exp (1 / 1000) 1
          (solve_matrix_enter (reference ℝ) 10 (reference_start ℝ)) 0 0) ∧
    (∀ (duration : ℝ) (st : State ℝ) (j : Nat),
      (solve_input (reference ℝ) Real.exp duration st j).loc.source
        = source_at (reference ℝ) Real.exp (timestep (reference ℝ) duration)
            (s_coeff (reference ℝ) duration st.r)
            (solve_matrix_frame (reference ℝ) Real.exp duration st j)
            ((j : ℝ) * timestep (reference ℝ) duration))) :=
  ⟨by decide, by norm_num [reference], one_pos,
    source_term_decays (reference ℝ) (1 / 1000) 1
      (solve_matrix_enter (reference ℝ) 10 (reference_start ℝ)) 0 0 1
      (by decide) (by norm_num [reference]) one_pos⟩

/-- C8: runs are independent of each other: for every pair of durations `d1` and `d2`, the state
(in particular the result field `T[2]`) left by `set_initial_conditions; solve_matrix(d1);
store_data(0); solve_matrix(d2)` equals the one left by `set_initial_conditions; solve_matrix(d2)`
alone. -/
theorem runs_independent (c : Consts K) (exp : K → K) (d1 d2 : K) (st : State K)
    (T_final : Nat → gsl_vector K) :
    (solve_matrix c exp d2
        (store_data c (solve_matrix c exp d1 (set_initial_conditions c st)) T_final 0).1).T2
      = (solve_matrix c exp d2 (set_initial_conditions c st)).T2 ∧
    solve_matrix c exp d2
        (store_data c (solve_matrix c exp d1 (set_initial_conditions c st)) T_final 0).1
      = solve_matrix c exp d2 (set_initial_conditions c st) := by
  have h : (store_data c (solve_matrix c exp d1 (set_initial_conditions c st)) T_final 0).1
      = set_initial_conditions c st := by
    show set_initial_conditions c (solve_matrix c exp d1 (set_initial_conditions c st))
      = set_initial_conditions c st
    rw [set_initial_conditions_solve_matrix, set_initial_conditions_twice]
  rw [h]
  exact ⟨rfl, rfl⟩

/-- C9: for every state and every slot index `j`, after `store_data(j)` the archive slot
`T_final[j]` equals at every index `0 ≤ i < N` the result field `T[2]` as it was before the call,
and every other archive slot `T_final[j']`, `j' ≠ j`, is unchanged. -/
theorem store_data_archive (c : Consts K) (st : State K) (T_final : Nat → gsl_vector K)
    (j i j' : Nat) (hi : i < c.N) (hj : j' ≠ j) :
    (store_data c st T_final j).2 j i = st.T2 i ∧
    (store_data c st T_final j).2 j' = T_final j' := by
  unfold store_data
  simp only [store_data_loop]
  simp [hi, hj]

/-- C9 at the reference constants: slot `0` receives entry `5`, slot `1` is untouched. -/
theorem store_data_archive_witness :
    5 < (reference ℚ).N ∧ 1 ≠ 0 ∧
    ((store_data (reference ℚ) (reference_start ℚ) (fun _ => gsl_vector_alloc 100) 0).2 0 5
      = (reference_start ℚ).T2 5 ∧
    (store_data (reference ℚ) (reference_start ℚ) (fun _ => gsl_vector_alloc 100) 0).2 1
      = (fun _ => gsl_vector_alloc 100) 1) :=
  ⟨by decide, by decide,
    store_data_archive (reference ℚ) (reference_start ℚ) (fun _ => gsl_vector_alloc 100) 0 5 1
      (by decide) (by decide)⟩

/-- C10: for every prior state, after `set_initial_conditions` every entry (`0 ≤ i < N`) of the
three temperature slots `T[0]`, `T[1]`, `T[2]` equals `300` and the three clock slots `time[0]`,
`time[1]`, `time[2]` equal `0`; the same holds for the working state after `store_data`
returns. -/
theorem initial_conditions_set (c : Consts K) (st : State K) (T_final : Nat → gsl_vector K)
    (j i : Nat) (hi : i < c.N) :
    ((set_initial_conditions c st).T0 i = 300 ∧ (set_initial_conditions c st).T1 i = 300 ∧
      (set_initial_conditions c st).T2 i = 300 ∧ (set_initial_conditions c st).time 0 = 0 ∧
      (set_initial_conditions c st).time 1 = 0 ∧ (set_initial_conditions c st).time 2 = 0) ∧
    ((store_data c st T_final j).1.T0 i = 300 ∧ (store_data c st T_final j).1.T1 i = 300 ∧
      (store_data c st T_final j).1.T2 i = 300 ∧ (store_data c st T_final j).1.time 0 = 0 ∧
      (store_data c st T_final j).1.time 1 = 0 ∧ (store_data c st T_final j).1.time 2 = 0) := by
  have key : (set_initial_conditions c st).T0 i = 300 ∧ (set_initial_conditions c st).T1 i = 300 ∧
      (set_initial_conditions c st).T2 i = 300 ∧ (set_initial_conditions c st).time 0 = 0 ∧
      (set_initial_conditions c st).time 1 = 0 ∧ (set_initial_conditions c st).time 2 = 0 := by
    rw [set_initial_conditions_eq]
    simp [hi, gsl_vector_set_apply]
  exact ⟨key, key⟩

/-- C10 at the reference constants: the last grid index, from the vectors as allocated. -/
theorem initial_conditions_set_witness :
    99 < (reference ℚ).N ∧
    (((set_initial_conditions (reference ℚ) (main_alloc (reference ℚ))).T0 99 = 300 ∧
      (set_initial_conditions (reference ℚ) (main_alloc (reference ℚ))).T1 99 = 300 ∧
      (set_initial_conditions (reference ℚ) (main_alloc (reference ℚ))).T2 99 = 300 ∧
      (set_initial_conditions (reference ℚ) (main_alloc (reference ℚ))).time 0 = 0 ∧
      (set_initial_conditions (reference ℚ) (main_alloc (reference ℚ))).time 1 = 0 ∧
      (set_initial_conditions (reference ℚ) (main_alloc (reference ℚ))).time 2 = 0) ∧
    ((store_data (reference ℚ) (main_alloc (reference ℚ)) (fun _ => gsl_vector_alloc 100) 3).1.T0 99
        = 300 ∧
      (store_data (reference ℚ) (main_alloc (reference ℚ)) (fun _ => gsl_vector_alloc 100) 3).1.T1 99
        = 300 ∧
      (store_data (reference ℚ) (main_alloc (reference ℚ)) (fun _ => gsl_vector_alloc 100) 3).1.T2 99
        = 300 ∧
      (store_data (reference ℚ) (main_alloc (reference ℚ)) (fun _ => gsl_vector_alloc 100) 3).1.time 0
        = 0 ∧
      (store_data (reference ℚ) (main_alloc (reference ℚ)) (fun _ => gsl_vector_alloc 100) 3).1.time 1
        = 0 ∧
      (store_data (reference ℚ) (main_alloc (reference ℚ)) (fun _ => gsl_vector_alloc 100) 3).1.time 2
        = 0)) :=
  ⟨by decide,
    initial_conditions_set (reference ℚ) (main_alloc (reference ℚ))
      (fun _ => gsl_vector_alloc 100) 3 99 (by decide)⟩

/-- C11: `set_initial_conditions` is idempotent: for every prior state, calling it twice in a row
yields exactly the same state (grid, temperature slots and clock) as calling it once. -/
theorem set_initial_conditions_idempotent (c : Consts K) (st : State K) :
    set_initial_conditions c (set_initial_conditions c st) = set_initial_conditions c st ∧
    (set_initial_conditions c (set_initial_conditions c st)).r = (set_initial_conditions c st).r ∧
    (set_initial_conditions c (set_initial_conditions c st)).T2
      = (set_initial_conditions c st).T2 ∧
    (set_initial_conditions c (set_initial_conditions c st)).time
      = (set_initial_conditions c st).time := by
  have h : set_initial_conditions c (set_initial_conditions c st)
      = set_initial_conditions c st := by
    rw [set_initial_conditions_eq c (set_initial_conditions c st), set_initial_conditions_eq c st]
    congr 1
    · funext j
      by_cases h : j < c.N <;> simp [h]
    · funext j
      simp only [gsl_vector_set_apply]
      by_cases h2 : j = 2
      · simp [h2]
      · by_cases h1 : j = 1
        · simp [h1]
        · by_cases h0 : j = 0
          · simp [h0]
          · simp [h2, h1, h0]
    · funext j
      by_cases h : j < c.N <;> simp [h]
    · funext j
      by_cases h : j < c.N <;> simp [h]
    · funext j
      by_cases h : j < c.N <;> simp [h]
  rw [h]
  exact ⟨rfl, rfl, rfl, rfl⟩

/-- C12 (the claim as stated fails): from the vectors as `main` allocates them, the call of
`set_initial_conditions` on line 195 changes the grid: `r[1]` is `0` before the call and `100/99`
after it. -/
theorem set_initial_conditions_writes_grid :
    (main_alloc (reference ℚ)).r 1 = 0 ∧
    (set_initial_conditions (reference ℚ) (main_alloc (reference ℚ))).r 1 = 100 / 99 ∧
    (set_initial_conditions (reference ℚ) (main_alloc (reference ℚ))).r
      ≠ (main_alloc (reference ℚ)).r := by
  have h0 : (main_alloc (reference ℚ)).r 1 = 0 := rfl
  have h1 : (set_initial_conditions (reference ℚ) (main_alloc (reference ℚ))).r 1 = 100 / 99 := by
    rw [set_initial_conditions_r (reference ℚ) _ 1 (by decide)]
    simp only [reference]
    norm_num
  refine ⟨h0, h1, ?_⟩
  intro h
  have h2 := congrFun h 1
  rw [h0, h1] at h2
  norm_num at h2

/-- C12 (amended): on every prior state whose grid already holds `r[i] = i * RC / (N-1)` for
`0 ≤ i < N`, the grid holds the same values after `set_initial_conditions` as before it, and
`store_data`, which invokes it, leaves the grid unchanged too. -/
theorem set_initial_conditions_keeps_built_grid (c : Consts K) (st : State K)
    (T_final : Nat → gsl_vector K) (j : Nat)
    (hgrid : ∀ i, i < c.N → st.r i = (i : K) * c.RC / ((c.N : K) - 1)) :
    (set_initial_conditions c st).r = st.r ∧ (store_data c st T_final j).1.r = st.r := by
  have h : (set_initial_conditions c st).r = st.r := by
    rw [set_initial_conditions_eq]
    funext i
    by_cases hi : i < c.N
    · simp only [if_pos hi]
      rw [hgrid i hi]
      push_cast
      rfl
    · simp only [if_neg hi]
  exact ⟨h, h⟩

/-- C12 (amended) on the state the first call of `set_initial_conditions` leaves, at the
reference constants. -/
theorem set_initial_conditions_keeps_built_grid_witness :
    (∀ i, i < (reference ℚ).N →
      (reference_start ℚ).r i = (i : ℚ) * (reference ℚ).RC / (((reference ℚ).N : ℚ) - 1)) ∧
    ((set_initial_conditions (reference ℚ) (reference_start ℚ)).r = (reference_start ℚ).r ∧
      (store_data (reference ℚ) (reference_start ℚ) (main_archive_alloc (reference ℚ)) 0).1.r
        = (reference_start ℚ).r) :=
  ⟨fun i hi => by
      unfold reference_start
      rw [set_initial_conditions_r (reference ℚ) _ i hi]
      push_cast
      rfl,
    set_initial_conditions_keeps_built_grid (reference ℚ) (reference_start ℚ)
      (main_archive_alloc (reference ℚ)) 0 (fun i hi => by
        unfold reference_start
        rw [set_initial_conditions_r (reference ℚ) _ i hi]
        push_cast
        rfl)⟩

/-- C13: the grid built by `set_initial_conditions` satisfies `r[i] = i * RC / (N-1)` for every
`0 ≤ i < N` (exact arithmetic, `N > 1`), so `r[0] = 0`, `r[N-1] = RC` and consecutive points are
`RC / (N-1)` apart. -/
theorem grid_built (c : Consts K) (st : State K) (i : Nat) (hN : 2 ≤ c.N) (hi : i < c.N) :
    (set_initial_conditions c st).r i = (i : K) * c.RC / ((c.N : K) - 1) ∧
    (set_initial_conditions c st).r 0 = 0 ∧
    (set_initial_conditions c st).r (c.N - 1) = c.RC ∧
    (i + 1 < c.N →
      (set_initial_conditions c st).r (i + 1) - (set_initial_conditions c st).r i
        = c.RC / ((c.N : K) - 1)) := by
  have hcast : ((((c.N : Int) - 1 : Int)) : K) = (c.N : K) - 1 := by push_cast; rfl
  have hne : (c.N : K) - 1 ≠ 0 := by
    have h2 : (2 : K) ≤ (c.N : K) := by exact_mod_cast hN
    have : (0 : K) < (c.N : K) - 1 := by linarith
    exact ne_of_gt this
  refine ⟨?_, ?_, ?_, ?_⟩
  · rw [set_initial_conditions_r c st i hi, hcast]
  · rw [set_initial_conditions_r c st 0 (by omega)]
    simp
  · rw [set_initial_conditions_r c st (c.N - 1) (by omega), hcast]
    have h1 : ((c.N - 1 : Nat) : K) = (c.N : K) - 1 := by
      rw [Nat.cast_sub (by omega)]
      simp
    rw [h1]
    field_simp
  · intro hi1
    rw [set_initial_conditions_r c st (i + 1) hi1, set_initial_conditions_r c st i hi, hcast]
    push_cast
    ring

/-- C13 at the reference constants, grid index `98`. -/
theorem grid_built_witness :
    2 ≤ (reference ℚ).N ∧ 98 < (reference ℚ).N ∧
    ((set_initial_conditions (reference ℚ) (main_alloc (reference ℚ))).r 98
      = ((98 : Nat) : ℚ) * (reference ℚ).RC / (((reference ℚ).N : ℚ) - 1) ∧
    (set_initial_conditions (reference ℚ) (main_alloc (reference ℚ))).r 0 = 0 ∧
    (set_initial_conditions (reference ℚ) (main_alloc (reference ℚ))).r ((reference ℚ).N - 1)
      = (reference ℚ).RC ∧
    (98 + 1 < (reference ℚ).N →
      (set_initial_conditions (reference ℚ) (main_alloc (reference ℚ))).r (98 + 1)
        - (set_initial_conditions (reference ℚ) (main_alloc (reference ℚ))).r 98
        = (reference ℚ).RC / (((reference ℚ).N : ℚ) - 1))) :=
  ⟨by decide, by decide,
    grid_built (reference ℚ) (main_alloc (reference ℚ)) 98 (by decide) (by decide)⟩

/-- C14 (the code against the claim): `main` performs four runs and archives run `j` in slot `j`,
but the durations of the runs are `0.01`, `10`, `50` and `100`: slot `0` holds the field of a run
of duration `1/100`, which is not the duration `1` of the claim. -/
theorem main_runs_archive (c : Consts K) (exp : K → K) :
    (main_runs c exp).2 0
      = (solve_matrix c exp (1 / 100) (set_initial_conditions c (main_alloc c))).T2 ∧
    (main_runs c exp).2 1
      = (solve_matrix c exp 10 (set_initial_conditions c (main_alloc c))).T2 ∧
    (main_runs c exp).2 2
      = (solve_matrix c exp 50 (set_initial_conditions c (main_alloc c))).T2 ∧
    (main_runs c exp).2 3
      = (solve_matrix c exp 100 (set_initial_conditions c (main_alloc c))).T2 ∧
    ((1 : K) / 100 ≠ 1) := by
  have h0 := archived_field_eq c exp (1 / 100)
  have h1 := archived_field_eq c exp 10
  have h2 := archived_field_eq c exp 50
  have h3 := archived_field_eq c exp 100
  unfold main_runs
  rw [run_and_store_eq, run_and_store_eq, run_and_store_eq, run_and_store_eq]
  refine ⟨?_, ?_, ?_, ?_, by norm_num⟩
  · simpa [main_archive_alloc, gsl_vector_alloc] using h0
  · simpa [main_archive_alloc, gsl_vector_alloc] using h1
  · simpa [main_archive_alloc, gsl_vector_alloc] using h2
  · simpa [main_archive_alloc, gsl_vector_alloc] using h3

/-- C15: for every grid and archive, the text `save_output` writes to `output.dat` (the file
opened, `N ≥ 1`, the conversion `%lf` producing no newline) is the `N` rows joined by single
newlines, with no header and no newline after the last row; split at the newlines it gives back
exactly the `N` rows; row `i` holds `r[i]` followed by `T_final[0][i]`, `T_final[1][i]`,
`T_final[2][i]`, `T_final[3][i]` in run order, each followed by one blank. -/
theorem save_output_text (c : Consts K) (fmt : K → List Char) (T_final : Nat → gsl_vector K)
    (r : gsl_vector K) (hN : 1 ≤ c.N) (hfmt : ∀ x, newline ∉ fmt x) :
    save_output c fmt true T_final r
      = Except.ok ([newline].intercalate ((List.range c.N).map (output_row fmt T_final r))) ∧
    ([newline].intercalate ((List.range c.N).map (output_row fmt T_final r))).splitOn newline
      = (List.range c.N).map (output_row fmt T_final r) ∧
    ((List.range c.N).map (output_row fmt T_final r)).length = c.N ∧
    (∀ i, output_row fmt T_final r i
      = fmt (r i) ++ [blank] ++ fmt (T_final 0 i) ++ [blank] ++ fmt (T_final 1 i) ++ [blank]
        ++ fmt (T_final 2 i) ++ [blank] ++ fmt (T_final 3 i) ++ [blank]) ∧
    ([newline].intercalate ((List.range c.N).map (output_row fmt T_final r))).getLast?
      = some blank := by
  refine ⟨?_, ?_, ?_, ?_, ?_⟩
  · unfold save_output
    rw [if_pos rfl, save_output_loop_intercalate c fmt T_final r hN]
  · apply List.splitOn_intercalate
    · intro l hl
      obtain ⟨i, _, rfl⟩ := List.mem_map.mp hl
      exact newline_not_mem_output_row fmt T_final r i hfmt
    · intro h
      have hlen := congrArg List.length h
      simp at hlen
      omega
  · simp
  · intro i
    simp [output_row, List.append_assoc]
  · obtain ⟨m, hm⟩ : ∃ m, c.N = m + 1 := ⟨c.N - 1, by omega⟩
    have h2 := flatten_sep_eq_intercalate [newline] (output_row fmt T_final r) m 0
    rw [Nat.zero_add, ← List.range_eq_range', ← List.range_eq_range'] at h2
    rw [hm, ← h2]
    have hrow : output_row fmt T_final r m
        = (fmt (r m) ++ [blank] ++ (fmt (T_final 0 m) ++ [blank])
          ++ (fmt (T_final 1 m) ++ [blank]) ++ (fmt (T_final 2 m) ++ [blank])
          ++ fmt (T_final 3 m)) ++ [blank] := by
      simp [output_row, List.append_assoc]
    rw [hrow, ← List.append_assoc, List.getLast?_concat]

/-- C15 at the reference constants, for the grid and archive `main` hands over and a conversion
that writes the digit `0`. -/
theorem save_output_text_witness :
    1 ≤ (reference ℚ).N ∧ (∀ x : ℚ, newline ∉ (fun _ : ℚ => [Char.ofNat 48]) x) ∧
    (save_output (reference ℚ) (fun _ => [Char.ofNat 48]) true
        (main_runs (reference ℚ) (fun _ => 1)).2 (main_runs (reference ℚ) (fun _ => 1)).1.r
      = Except.ok ([newline].intercalate ((List.range (reference ℚ).N).map
          (output_row (fun _ => [Char.ofNat 48]) (main_runs (reference ℚ) (fun _ => 1)).2
            (main_runs (reference ℚ) (fun _ => 1)).1.r))) ∧
    ([newline].intercalate ((List.range (reference ℚ).N).map
        (output_row (fun _ => [Char.ofNat 48]) (main_runs (reference ℚ) (fun _ => 1)).2
          (main_runs (reference ℚ) (fun _ => 1)).1.r))).splitOn newline
      = (List.range (reference ℚ).N).map
          (output_row (fun _ => [Char.ofNat 48]) (main_runs (reference ℚ) (fun _ => 1)).2
            (main_runs (reference ℚ) (fun _ => 1)).1.r) ∧
    ((List.range (reference ℚ).N).map
        (output_row (fun _ => [Char.ofNat 48]) (main_runs (reference ℚ) (fun _ => 1)).2
          (main_runs (reference ℚ) (fun _ => 1)).1.r)).length = (reference ℚ).N ∧
    (∀ i, output_row (fun _ => [Char.ofNat 48]) (main_runs (reference ℚ) (fun _ => 1)).2
        (main_runs (reference ℚ) (fun _ => 1)).1.r i
      = (fun _ : ℚ => [Char.ofNat 48]) ((main_runs (reference ℚ) (fun _ => 1)).1.r i) ++ [blank]
        ++ (fun _ : ℚ => [Char.ofNat 48]) ((main_runs (reference ℚ) (fun _ => 1)).2 0 i)
        ++ [blank]
        ++ (fun _ : ℚ => [Char.ofNat 48]) ((main_runs (reference ℚ) (fun _ => 1)).2 1 i)
        ++ [blank]
        ++ (fun _ : ℚ => [Char.ofNat 48]) ((main_runs (reference ℚ) (fun _ => 1)).2 2 i)
        ++ [blank]
        ++ (fun _ : ℚ => [Char.ofNat 48]) ((main_runs (reference ℚ) (fun _ => 1)).2 3 i)
        ++ [blank]) ∧
    ([newline].intercalate ((List.range (reference ℚ).N).map
        (output_row (fun _ => [Char.ofNat 48]) (main_runs (reference ℚ) (fun _ => 1)).2
          (main_runs (reference ℚ) (fun _ => 1)).1.r))).getLast? = some blank) :=
  ⟨by decide, fun _ => by show newline ∉ [Char.ofNat 48]; decide,
    save_output_text (reference ℚ) (fun _ => [Char.ofNat 48])
      (main_runs (reference ℚ) (fun _ => 1)).2 (main_runs (reference ℚ) (fun _ => 1)).1.r
      (by decide) (fun _ => by show newline ∉ [Char.ofNat 48]; decide)⟩

/-- C16: for every duration `≥ 0` (hence `s ≥ 0`, the constant `k` being non-negative) and
`N ≥ 2`, the matrix `solve_matrix` assembles and hands to the linear solve is strictly diagonally
dominant by rows: in every row, the first and the last included, the diagonal entry exceeds the
sum of the absolute values of the off-diagonal entries.  Consequently no pivot of the tridiagonal
elimination is zero, and for every right-hand side the system `A x = b` has exactly one solution
on the grid. -/
theorem assembled_matrix_dominant (c : Consts K) (exp : K → K) (duration : K) (st : State K)
    (m : Nat) (hN : 2 ≤ c.N) (hk : 0 ≤ c.k) (hd : 0 ≤ duration) :
    0 ≤ s_coeff c duration st.r ∧
    (∀ i, i < c.N →
      |sub_entry (solve_input c exp duration st m).loc.below_diag i|
        + |super_entry c.N (solve_input c exp duration st m).loc.above_diag i|
        < (solve_input c exp duration st m).loc.diag i) ∧
    (∀ i, i < c.N →
      thomas_alpha (solve_input c exp duration st m).loc.diag
        (solve_input c exp duration st m).loc.above_diag
        (solve_input c exp duration st m).loc.below_diag i ≠ 0) ∧
    (∀ b : gsl_vector K, ∃ x : gsl_vector K,
      TridiagSolves c.N (solve_input c exp duration st m).loc.diag
        (solve_input c exp duration st m).loc.above_diag
        (solve_input c exp duration st m).loc.below_diag b x ∧
      ∀ y : gsl_vector K,
        TridiagSolves c.N (solve_input c exp duration st m).loc.diag
          (solve_input c exp duration st m).loc.above_diag
          (solve_input c exp duration st m).loc.below_diag b y →
        ∀ i, i < c.N → y i = x i) := by
  have hs := s_coeff_nonneg c duration st.r hk hd
  obtain ⟨e1, e2, e3⟩ := solve_input_matrix c exp duration st m
  rw [e1, e2, e3]
  have hdom := assemble_rowDominant c.N hN (s_coeff c duration st.r) hs (solve_matrix_locals c)
  refine ⟨hs, ?_, ?_, ?_⟩
  · intro i hi
    exact rowDominant_strict c.N _ _ _ hdom i hi
  · intro i hi
    exact thomas_alpha_ne_zero c.N _ _ _ hdom i hi
  · intro b
    have hsol := thomas_solves c.N
      (assemble c.N (s_coeff c duration st.r) (solve_matrix_locals c)).diag
      (assemble c.N (s_coeff c duration st.r) (solve_matrix_locals c)).above_diag
      (assemble c.N (s_coeff c duration st.r) (solve_matrix_locals c)).below_diag b (fun _ => 0)
      (fun i hi => thomas_alpha_ne_zero c.N _ _ _ hdom i hi)
    exact ⟨_, hsol, fun y hy => tridiag_unique c.N _ _ _ b y _ hdom hy hsol⟩

/-- C16 at the reference constants, for the first iteration of the run of duration `10`. -/
theorem assembled_matrix_dominant_witness :
    2 ≤ (reference ℚ).N ∧ 0 ≤ (reference ℚ).k ∧ (0 : ℚ) ≤ 10 ∧
    (0 ≤ s_coeff (reference ℚ) 10 (reference_start ℚ).r ∧
    (∀ i, i < (reference ℚ).N →
      |sub_entry (solve_input (reference ℚ) (fun _ => 1) 10 (reference_start ℚ) 0).loc.below_diag i|
        + |super_entry (reference ℚ).N
            (solve_input (reference ℚ) (fun _ => 1) 10 (reference_start ℚ) 0).loc.above_diag i|
        < (solve_input (reference ℚ) (fun _ => 1) 10 (reference_start ℚ) 0).loc.diag i) ∧
    (∀ i, i < (reference ℚ).N →
      thomas_alpha (solve_input (reference ℚ) (fun _ => 1) 10 (reference_start ℚ) 0).loc.diag
        (solve_input (reference ℚ) (fun _ => 1) 10 (reference_start ℚ) 0).loc.above_diag
        (solve_input (reference ℚ) (fun _ => 1) 10 (reference_start ℚ) 0).loc.below_diag i ≠ 0) ∧
    (∀ b : gsl_vector ℚ, ∃ x : gsl_vector ℚ,
      TridiagSolves (reference ℚ).N
        (solve_input (reference ℚ) (fun _ => 1) 10 (reference_start ℚ) 0).loc.diag
        (solve_input (reference ℚ) (fun _ => 1) 10 (reference_start ℚ) 0).loc.above_diag
        (solve_input (reference ℚ) (fun _ => 1) 10 (reference_start ℚ) 0).loc.below_diag b x ∧
      ∀ y : gsl_vector ℚ,
        TridiagSolves (reference ℚ).N
          (solve_input (reference ℚ) (fun _ => 1) 10 (reference_start ℚ) 0).loc.diag
          (solve_input (reference ℚ) (fun _ => 1) 10 (reference_start ℚ) 0).loc.above_diag
          (solve_input (reference ℚ) (fun _ => 1) 10 (reference_start ℚ) 0).loc.below_diag b y →
        ∀ i, i < (reference ℚ).N → y i = x i)) :=
  ⟨by decide, by norm_num [reference], by norm_num,
    assembled_matrix_dominant (reference ℚ) (fun _ => 1) 10 (reference_start ℚ) 0
      (by decide) (by norm_num [reference]) (by norm_num)⟩

/-- C17: temperatures never fall below ambient.  For every duration `> 0` (with `N ≥ 2` and
`k ≥ 0`): if every entry of the field entering a solver step is `≥ 300`, then every entry of an
exact solution of that step's system `A x = b` is `≥ 300`; hence, from the state set by
`set_initial_conditions`, every entry of the field is `≥ 300` after each iteration of
`solve_matrix`. -/
theorem temperatures_stay_above_ambient (c : Consts ℝ) (duration : ℝ) (st : State ℝ)
    (hN : 2 ≤ c.N) (hk : 0 ≤ c.k) (hd : 0 < duration) :
    (∀ (j : Nat) (f : Frame ℝ) (x : gsl_vector ℝ),
      (∀ i, i < c.N → 300 ≤ f.st.T2 i) →
      TridiagSolves c.N
        (assemble c.N (s_coeff c duration f.st.r) (solve_matrix_locals c)).diag
        (assemble c.N (s_coeff c duration f.st.r) (solve_matrix_locals c)).above_diag
        (assemble c.N (s_coeff c duration f.st.r) (solve_matrix_locals c)).below_diag
        (rhs_loop c Real.exp (timestep c duration) (s_coeff c duration f.st.r) j f).loc.b x →
      ∀ i, i < c.N → 300 ≤ x i) ∧
    (∀ m i, i < c.N →
      300 ≤ (solve_matrix_frame c Real.exp duration (set_initial_conditions c st) m).st.T2 i) := by
  have hdt := timestep_nonneg c duration (le_of_lt hd)
  have hkdt : 0 ≤ c.k * timestep c duration := mul_nonneg hk hdt
  constructor
  · intro j f x hT hx
    have hs := s_coeff_nonneg c duration f.st.r hk (le_of_lt hd)
    refine step_lower_bound c Real.exp (timestep c duration) (s_coeff c duration f.st.r) f.st.r
      f.st.T2 ((j : ℝ) * timestep c duration) (solve_matrix_locals c) _ x hN hs
      (fun i hi => rhs_loop_b c Real.exp _ _ j f i hi) ?_ hx
    intro i hi
    have hsrc : 0 ≤ source_entry c Real.exp f.st.r ((j : ℝ) * timestep c duration) i := by
      unfold source_entry
      split_ifs
      · exact div_nonneg (le_of_lt (Real.exp_pos _)) (mul_self_nonneg _)
      · exact le_refl 0
    have := mul_nonneg hkdt hsrc
    have := hT i hi
    linarith
  · intro m i hi
    exact (solve_matrix_frame_bounds c Real.exp duration (set_initial_conditions c st) hN hk
      (le_of_lt hd)
      (fun t ht => ⟨le_of_lt (real_exp_range t ht).1, (real_exp_range t ht).2⟩)
      (fun j hj => set_initial_conditions_T2 c st j hj) m i hi).1

/-- C17 at the reference constants and duration `10`. -/
theorem temperatures_stay_above_ambient_witness :
    2 ≤ (reference ℝ).N ∧ 0 ≤ (reference ℝ).k ∧ (0 : ℝ) < 10 ∧
    ((∀ (j : Nat) (f : Frame ℝ) (x : gsl_vector ℝ),
      (∀ i, i < (reference ℝ).N → 300 ≤ f.st.T2 i) →
      TridiagSolves (reference ℝ).N
        (assemble (reference ℝ).N (s_coeff (reference ℝ) 10 f.st.r)
          (solve_matrix_locals (reference ℝ))).diag
        (assemble (reference ℝ).N (s_coeff (reference ℝ) 10 f.st.r)
          (solve_matrix_locals (reference ℝ))).above_diag
        (assemble (reference ℝ).N (s_coeff (reference ℝ) 10 f.st.r)
          (solve_matrix_locals (reference ℝ))).below_diag
        (rhs_loop (reference ℝ) Real.exp (timestep (reference ℝ) 10)
          (s_coeff (reference ℝ) 10 f.st.r) j f).loc.b x →
      ∀ i, i < (reference ℝ).N → 300 ≤ x i) ∧
    (∀ m i, i < (reference ℝ).N →
      300 ≤ (solve_matrix_frame (reference ℝ) Real.exp 10
        (set_initial_conditions (reference ℝ) (main_alloc (reference ℝ))) m).st.T2 i)) :=
  ⟨by decide, by norm_num [reference], by norm_num,
    temperatures_stay_above_ambient (reference ℝ) 10 (main_alloc (reference ℝ))
      (by decide) (by norm_num [reference]) (by norm_num)⟩

/-- C18: the ambient field is a fixed point of a source-free step.  For every `s` (and `N ≥ 2`),
when the source vector of the step is zero at every grid point and the previous field is `300`
at every grid point, the uniform field `x[i] = 300` satisfies every row of the assembled system
`A x = b`: the coefficients of the first row, `diag[0] + above_diag[0]`, sum to `1`, and those of
the last row, `below_diag[N-2] + diag[N-1]`, sum to `1 + s + s/(2N)`, which the Dirichlet term
`300 * (s + s/(2N))` in `b[N-1]` balances. -/
theorem ambient_fixed_point (c : Consts K) (exp : K → K) (dt s : K) (j : Nat) (f : Frame K)
    (l : Locals K) (hN : 2 ≤ c.N)
    (hsrc : ∀ i, i < c.N → (rhs_loop c exp dt s j f).loc.source i = 0)
    (hT : ∀ i, i < c.N → f.st.T2 i = 300) :
    TridiagSolves c.N (assemble c.N s l).diag (assemble c.N s l).above_diag
      (assemble c.N s l).below_diag (rhs_loop c exp dt s j f).loc.b (fun _ => 300) ∧
    (assemble c.N s l).diag 0 + (assemble c.N s l).above_diag 0 = 1 ∧
    (assemble c.N s l).below_diag (c.N - 2) + (assemble c.N s l).diag (c.N - 1)
      = 1 + s + s / (2 * (c.N : K)) ∧
    (rhs_loop c exp dt s j f).loc.b (c.N - 1) = 300 + 300 * (s + s / (2 * (c.N : K))) := by
  have hb : ∀ i, i < c.N → (rhs_loop c exp dt s j f).loc.b i
      = if i + 1 = c.N then 300 + 300 * (s + s / ((2 * c.N : Nat) : K)) else 300 := by
    intro i hi
    have h0 := hsrc i hi
    rw [rhs_loop_source c exp dt s j f i hi] at h0
    rw [rhs_loop_b c exp dt s j f i hi]
    unfold rhs_entry
    rw [h0, hT i hi]
    by_cases hl : i + 1 = c.N
    · have hl1 : i = c.N - 1 := by omega
      rw [if_pos hl, if_pos hl1]
      ring
    · have hl1 : ¬ (i = c.N - 1) := by omega
      rw [if_neg hl, if_neg hl1]
      ring
  refine ⟨?_, ?_, ?_, ?_⟩
  · intro i hi
    have hsum := assemble_row_sum c.N hN s l i hi
    rw [hb i hi]
    unfold row_apply
    have hlin : sub_entry (assemble c.N s l).below_diag i * 300 + (assemble c.N s l).diag i * 300
        + super_entry c.N (assemble c.N s l).above_diag i * 300
        = (sub_entry (assemble c.N s l).below_diag i + (assemble c.N s l).diag i
          + super_entry c.N (assemble c.N s l).above_diag i) * 300 := by ring
    show sub_entry (assemble c.N s l).below_diag i * 300 + (assemble c.N s l).diag i * 300
        + super_entry c.N (assemble c.N s l).above_diag i * 300 = _
    rw [hlin, hsum]
    split_ifs <;> ring
  · have h := assemble_row_sum c.N hN s l 0 (by omega)
    have hne : ¬ (0 + 1 = c.N) := by omega
    have hlt : 0 + 1 < c.N := by omega
    rw [if_neg hne] at h
    simpa [sub_entry, super_entry, hlt] using h
  · have h := assemble_row_sum c.N hN s l (c.N - 1) (by omega)
    have he : c.N - 1 + 1 = c.N := by omega
    have hnl : ¬ (c.N - 1 + 1 < c.N) := by omega
    have hpos : 0 < c.N - 1 := by omega
    have h2 : c.N - 1 - 1 = c.N - 2 := by omega
    rw [if_pos he] at h
    simp only [sub_entry, super_entry, if_pos hpos, if_neg hnl, h2, add_zero] at h
    rw [h]
    push_cast
    ring
  · rw [hb (c.N - 1) (by omega), if_pos (by omega)]
    push_cast
    ring

/-- C18 at the reference constants with `s = 3`, a source switched off and the initialised
field. -/
theorem ambient_fixed_point_witness :
    2 ≤ (reference ℚ).N ∧
    (∀ i, i < (reference ℚ).N →
      (rhs_loop (reference ℚ) (fun _ => 0) (1 / 1000) 3 0
        (solve_matrix_enter (reference ℚ) 10 (reference_start ℚ))).loc.source i = 0) ∧
    (∀ i, i < (reference ℚ).N →
      (solve_matrix_enter (reference ℚ) 10 (reference_start ℚ)).st.T2 i = 300) ∧
    (TridiagSolves (reference ℚ).N
      (assemble (reference ℚ).N 3 (solve_matrix_locals (reference ℚ))).diag
      (assemble (reference ℚ).N 3 (solve_matrix_locals (reference ℚ))).above_diag
      (assemble (reference ℚ).N 3 (solve_matrix_locals (reference ℚ))).below_diag
      (rhs_loop (reference ℚ) (fun _ => 0) (1 / 1000) 3 0
        (solve_matrix_enter (reference ℚ) 10 (reference_start ℚ))).loc.b (fun _ => 300) ∧
    (assemble (reference ℚ).N 3 (solve_matrix_locals (reference ℚ))).diag 0
      + (assemble (reference ℚ).N 3 (solve_matrix_locals (reference ℚ))).above_diag 0 = 1 ∧
    (assemble (reference ℚ).N 3 (solve_matrix_locals (reference ℚ))).below_diag
        ((reference ℚ).N - 2)
      + (assemble (reference ℚ).N 3 (solve_matrix_locals (reference ℚ))).diag
        ((reference ℚ).N - 1)
      = 1 + 3 + 3 / (2 * ((reference ℚ).N : ℚ)) ∧
    (rhs_loop (reference ℚ) (fun _ => 0) (1 / 1000) 3 0
        (solve_matrix_enter (reference ℚ) 10 (reference_start ℚ))).loc.b ((reference ℚ).N - 1)
      = 300 + 300 * (3 + 3 / (2 * ((reference ℚ).N : ℚ)))) :=
  ⟨by decide,
    fun i hi => by
      rw [rhs_loop_source _ _ _ _ _ _ i hi]
      simp [source_entry],
    fun i hi => set_initial_conditions_T2 (reference ℚ) _ i hi,
    ambient_fixed_point (reference ℚ) (fun _ => 0) (1 / 1000) 3 0
      (solve_matrix_enter (reference ℚ) 10 (reference_start ℚ))
      (solve_matrix_locals (reference ℚ)) (by decide)
      (fun i hi => by
        rw [rhs_loop_source _ _ _ _ _ _ i hi]
        simp [source_entry])
      (fun i hi => set_initial_conditions_T2 (reference ℚ) _ i hi)⟩

/-- C19: for every duration `> 0` (with `N ≥ 2`, `M ≥ 1`, `k ≥ 0`), after `solve_matrix` is run
from the state set by `set_initial_conditions`, in exact real arithmetic and with the exact linear
solve, every entry of the resulting field is at most `300 + k * duration / a^2`. -/
theorem temperature_rise_bounded (c : Consts ℝ) (duration : ℝ) (st : State ℝ) (i : Nat)
    (hN : 2 ≤ c.N) (hM : 1 ≤ c.M) (hk : 0 ≤ c.k) (hd : 0 < duration) (hi : i < c.N) :
    (solve_matrix c Real.exp duration (set_initial_conditions c st)).T2 i
      ≤ 300 + c.k * duration / c.a ^ 2 := by
  have h := (solve_matrix_bounds c Real.exp duration st hN hM hk (le_of_lt hd)
    (fun t ht => ⟨le_of_lt (real_exp_range t ht).1, (real_exp_range t ht).2⟩) i hi).2
  rw [pow_two]
  exact h

/-- C19 at the reference constants: the run of duration `10`, first grid point. -/
theorem temperature_rise_bounded_witness :
    2 ≤ (reference ℝ).N ∧ 1 ≤ (reference ℝ).M ∧ 0 ≤ (reference ℝ).k ∧ (0 : ℝ) < 10 ∧
    0 < (reference ℝ).N ∧
    (solve_matrix (reference ℝ) Real.exp 10
        (set_initial_conditions (reference ℝ) (main_alloc (reference ℝ)))).T2 0
      ≤ 300 + (reference ℝ).k * 10 / (reference ℝ).a ^ 2 :=
  ⟨by decide, by decide, by norm_num [reference], by norm_num, by decide,
    temperature_rise_bounded (reference ℝ) 10 (main_alloc (reference ℝ)) 0
      (by decide) (by decide) (by norm_num [reference]) (by norm_num) (by decide)⟩

end NuclearWasteRod
